import Mathlib

/-!
Verification of the pcd-viewer ingestion / LOD pipeline.

Shallow embedding of the core algorithms of the repository:
  * the LZF decompressor (`src/components/RvizViewer/utils/pcdParser.ts`,
    `lzfDecompress`),
  * the ASCII PCD decoders (`parseASCIIData` in the same file, and
    `parsePCDASCII` in `src/workers/pcd-parser.worker.ts`),
  * the octree builder and voxel downsampler
    (`src/components/RvizViewer/utils/octree.ts`),
  * the per-frame visibility / LOD scheduler
    (`src/components/PointCloudEngine/PointCloudEngine.ts`,
    `updateVisibilityAndLOD`).

JavaScript numbers are modelled as rationals (`ℚ`) where the code treats
them as reals, and as `Nat`/`Int` where the code manipulates byte values
and indices.  Thrown exceptions are modelled with `Except`.
-/

set_option linter.unusedSectionVars false

namespace PcdViewer

/-! ## LZF decompressor

Embedding of `lzfDecompress` (pcdParser.ts lines 469-590).  Bytes are
`Nat` values < 256; the output `Uint8Array(decompressedSize)` is modelled
as a growing `Array Nat` (the typed array is zero-initialised and written
strictly left to right, so the suffix beyond `outputPos` stays zero and is
appended at the end, exactly as `decompressed.fill(0, outputPos)` does). -/

/-- Errors thrown by `lzfDecompress`.  The source throws `Error` objects
with distinct messages; we give each throw site its own constructor. -/
inductive LzfError where
  | endOfInputLength : LzfError
  | endOfInputOffset : LzfError
  | invalidBackReference : Int → Nat → LzfError
  | sizeMismatch : Nat → Nat → LzfError
deriving Repr, DecidableEq

/-- The back-reference copy loop
`for (let i = 0; i < length; i++) decompressed[outputPos++] = decompressed[offset + i]`:
byte-by-byte, in increasing order, reading from the array as already
written (including bytes written earlier in the same copy).  `i` is the
loop counter, the second argument the remaining length. -/
def lzfCopyMatch (src : Nat) : Nat → Nat → Array Nat → Array Nat
  | _, 0, out => out
  | i, n + 1, out => lzfCopyMatch src (i + 1) n (out.push (out.getD (src + i) 0))

/-- Outcome of one iteration of the `while` loop of `lzfDecompress`:
either the loop stops (`done`, the source's loop-condition exit or
`break`), an exception is thrown (`fail`), or the loop continues with the
remaining input and the enlarged output (`next`). -/
inductive LzfStep where
  | done : Array Nat → LzfStep
  | fail : LzfError → LzfStep
  | next : List Nat → Array Nat → LzfStep
deriving Repr, DecidableEq

/-- One iteration of the
`while (inputPos < inputLength && outputPos < decompressedSize)` loop of
`lzfDecompress` (pcdParser.ts 479-570).  The first list argument is the
not-yet-consumed suffix of the compressed bytes, `out` the bytes written
so far (`out.size` = `outputPos`).  The source's clamping reassignments
(`if (inputPos + length > inputLength) length = inputLength - inputPos`,
`if (outputPos + length > decompressedSize) length = decompressedSize - outputPos`)
are rendered by the nested `min`s, and a clamp to zero is the source's
`break`. -/
def lzfIter (size : Nat) : List Nat → Array Nat → LzfStep
  | [], out => .done out
  | ctrl :: rest, out =>
    if size ≤ out.size then .done out
    else if ctrl < 32 then
      -- literal run of ctrl + 1 bytes
      if min (ctrl + 1) rest.length = 0 then .done out
      else if min (min (ctrl + 1) rest.length) (size - out.size) = 0 then .done out
      else
        .next (rest.drop (min (min (ctrl + 1) rest.length) (size - out.size)))
          (out ++ (rest.take (min (min (ctrl + 1) rest.length) (size - out.size))).toArray)
    else
      -- back-reference; length is ctrl >> 5, plus an extra byte when 7, plus 2
      if ctrl / 32 = 7 then
        match rest with
        | [] => .fail .endOfInputLength
        | [_] => .fail .endOfInputOffset
        | ext :: low :: rest2 =>
          if (out.size : Int) - (((ctrl % 32) * 256 + low : Nat) : Int) - 1 < 0
              ∨ (out.size : Int) ≤ (out.size : Int) - (((ctrl % 32) * 256 + low : Nat) : Int) - 1 then
            .fail (.invalidBackReference
              ((out.size : Int) - (((ctrl % 32) * 256 + low : Nat) : Int) - 1) out.size)
          else if min (7 + ext + 2) (size - out.size) = 0 then .done out
          else
            .next rest2
              (lzfCopyMatch ((out.size : Int) - (((ctrl % 32) * 256 + low : Nat) : Int) - 1).toNat 0
                (min (7 + ext + 2) (size - out.size)) out)
      else
        match rest with
        | [] => .fail .endOfInputOffset
        | low :: rest2 =>
          if (out.size : Int) - (((ctrl % 32) * 256 + low : Nat) : Int) - 1 < 0
              ∨ (out.size : Int) ≤ (out.size : Int) - (((ctrl % 32) * 256 + low : Nat) : Int) - 1 then
            .fail (.invalidBackReference
              ((out.size : Int) - (((ctrl % 32) * 256 + low : Nat) : Int) - 1) out.size)
          else if min (ctrl / 32 + 2) (size - out.size) = 0 then .done out
          else
            .next rest2
              (lzfCopyMatch ((out.size : Int) - (((ctrl % 32) * 256 + low : Nat) : Int) - 1).toNat 0
                (min (ctrl / 32 + 2) (size - out.size)) out)

/-- The `while` loop of `lzfDecompress`, iterating `lzfIter` until it
stops or throws.  Each iteration consumes at least the control byte, so
the remaining input shrinks. -/
def lzfRun (size : Nat) (input : List Nat) (out : Array Nat) : Except LzfError (Array Nat) :=
  match h : lzfIter size input out with
  | .done o => .ok o
  | .fail e => .error e
  | .next i2 o2 => lzfRun size i2 o2
termination_by input.length
decreasing_by
  cases input with
  | nil => simp [lzfIter] at h
  | cons ctrl rest =>
    unfold lzfIter at h
    repeat' split at h
    all_goals try injections
    all_goals subst_vars
    all_goals try injections
    all_goals subst_vars
    all_goals simp_all [List.length_drop]
    all_goals omega

/-- Embedding of `lzfDecompress` (pcdParser.ts 469-590).  After the loop:
if `outputPos` fell short of `decompressedSize` by more than 1 percent the
source throws the size-mismatch error, otherwise the remaining bytes stay
zero (`decompressed.fill(0, outputPos)`).  The float comparison
`diff > decompressedSize * 0.01` is modelled exactly as
`100 * diff > size`. -/
def lzfDecompress (compressed : List Nat) (size : Nat) : Except LzfError (List Nat) :=
  match lzfRun size compressed #[] with
  | .error e => .error e
  | .ok out =>
    if out.size = size then .ok out.toList
    else
      let diff := size - out.size
      if 100 * diff > size then .error (.sizeMismatch size out.size)
      else .ok (out.toList ++ List.replicate diff 0)

/-! ## Chunk / LOD visibility scheduler

Embedding of `updateVisibilityAndLOD`
(`PointCloudEngine.ts` lines 186-258).  The engine keeps chunks grouped
by LOD level in the map `chunksByLOD`; the update sorts the level keys
ascending (`Array.from(this.chunksByLOD.keys()).sort((a, b) => a - b)`)
and iterates tier by tier.  A tier list models one map entry, the
working set the list of entries.  Camera and three.js frustum geometry
are external to the repository; the frustum test
`this.frustum.intersectsBox(box from chunk.bounds)` is abstracted as a
boolean predicate on the chunk's bounds.  Every chunk is assumed to have
its `pointsObject` (as `addChunk` always creates it); its `.visible`
flag is the `visible` field. -/

/-- Axis-aligned bounds of a chunk (`PointCloudChunk.bounds`). -/
structure ChunkBounds where
  min : ℚ × ℚ × ℚ
  max : ℚ × ℚ × ℚ
  center : ℚ × ℚ × ℚ
deriving DecidableEq, Repr

/-- A `PointCloudChunk` (PointCloudEngine.ts lines 10-24): payload
buffers, count, bounds, LOD level, and the renderer object's visibility
flag. -/
structure PointCloudChunk where
  id : String
  points : List ℚ
  colors : List Nat
  count : Nat
  bounds : ChunkBounds
  lod : Nat
  visible : Bool
deriving DecidableEq, Repr

/-- The fields of `RenderOptions` that `updateVisibilityAndLOD` reads. -/
structure RenderOptions where
  maxPointCount : Nat
  pointBudget : Nat
  enableFrustumCulling : Bool
deriving DecidableEq, Repr

/-- The inner `for (const chunk of chunks)` loop over one LOD tier
(PointCloudEngine.ts 206-248).  Returns the updated chunk list, the
running `renderedCount`, the `visibleChunks` counter, and whether the
in-loop budget check (`renderedCount >= pointBudget` right after showing
a chunk) fired: in that case the remaining chunks of the tier are left
untouched, exactly as the source's `break`. -/
def processTier (opts : RenderOptions) (inFrustum : ChunkBounds → Bool) :
    List PointCloudChunk → Nat → Nat → List PointCloudChunk × Nat × Nat × Bool
  | [], rc, vc => ([], rc, vc, false)
  | c :: rest, rc, vc =>
    if opts.enableFrustumCulling && !(inFrustum c.bounds) then
      -- frustum culled: mark hidden, charge nothing
      let r := processTier opts inFrustum rest rc vc
      ({c with visible := false} :: r.1, r.2)
    else if opts.maxPointCount < rc + c.count then
      -- would exceed the hard per-frame cap: mark hidden, charge nothing
      let r := processTier opts inFrustum rest rc vc
      ({c with visible := false} :: r.1, r.2)
    else if opts.pointBudget ≤ rc + c.count then
      -- shown, and the soft budget is now reached: break out of the tier
      ({c with visible := true} :: rest, rc + c.count, vc + 1, true)
    else
      let r := processTier opts inFrustum rest (rc + c.count) (vc + 1)
      ({c with visible := true} :: r.1, r.2)

/-- The `for (const higherLOD of lodLevels) if (higherLOD > lod) ...`
pass (PointCloudEngine.ts 236-245): hide every chunk of every
higher-numbered tier.  With the tier list sorted ascending these are
exactly the not-yet-visited tiers. -/
def hideAll (tiers : List (Nat × List PointCloudChunk)) : List (Nat × List PointCloudChunk) :=
  tiers.map (fun t => (t.1, t.2.map (fun c => { c with visible := false })))

/-- The outer `for (const lod of lodLevels)` loop (PointCloudEngine.ts
203-254) over the ascending-sorted tiers.  If the in-tier budget check
fired, higher tiers are hidden and traversal stops; if the post-tier
check `renderedCount >= pointBudget` fires, traversal stops leaving the
remaining tiers untouched. -/
def processTiers (opts : RenderOptions) (inFrustum : ChunkBounds → Bool) :
    List (Nat × List PointCloudChunk) → Nat → Nat →
      List (Nat × List PointCloudChunk) × Nat × Nat
  | [], rc, vc => ([], rc, vc)
  | (lod, cs) :: rest, rc, vc =>
    let r := processTier opts inFrustum cs rc vc
    if r.2.2.2 then
      ((lod, r.1) :: hideAll rest, r.2.1, r.2.2.1)
    else if opts.pointBudget ≤ r.2.1 then
      ((lod, r.1) :: rest, r.2.1, r.2.2.1)
    else
      let r2 := processTiers opts inFrustum rest r.2.1 r.2.2.1
      ((lod, r.1) :: r2.1, r2.2)

/-- Ascending insertion used to model
`Array.from(this.chunksByLOD.keys()).sort((a, b) => a - b)`: the level
keys are sorted numerically ascending (keys of a map are distinct, so
the choice of sorting algorithm is immaterial). -/
def insertTier (t : Nat × List PointCloudChunk) :
    List (Nat × List PointCloudChunk) → List (Nat × List PointCloudChunk)
  | [] => [t]
  | u :: rest => if t.1 ≤ u.1 then t :: u :: rest else u :: insertTier t rest

/-- Sort the tier list by ascending LOD level. -/
def sortTiers (tiers : List (Nat × List PointCloudChunk)) :
    List (Nat × List PointCloudChunk) :=
  tiers.foldr insertTier []

/-- Embedding of `updateVisibilityAndLOD` (PointCloudEngine.ts 186-258):
sort the LOD keys ascending, traverse, and return the updated working
set together with the frame stats `renderedPoints` and `visibleChunks`. -/
def updateVisibilityAndLOD (opts : RenderOptions) (inFrustum : ChunkBounds → Bool)
    (tiers : List (Nat × List PointCloudChunk)) :
    List (Nat × List PointCloudChunk) × Nat × Nat :=
  processTiers opts inFrustum (sortTiers tiers) 0 0

/-- Sum of the point counts of the chunks whose visibility flag is set. -/
def visiblePoints (cs : List PointCloudChunk) : Nat :=
  ((cs.filter (fun c => c.visible)).map (fun c => c.count)).sum

/-- Sum of visible point counts over a whole working set. -/
def visiblePointsTiers (tiers : List (Nat × List PointCloudChunk)) : Nat :=
  (tiers.map (fun t => visiblePoints t.2)).sum

/-- The per-chunk fields other than the visibility flag. -/
def PointCloudChunk.core (c : PointCloudChunk) :
    String × List ℚ × List Nat × Nat × ChunkBounds × Nat :=
  (c.id, c.points, c.colors, c.count, c.bounds, c.lod)

/-! ## Spatial partitioner

Embedding of `voxelDownsample` and `buildOctree` / `buildOctreeRecursive`
(`octree.ts`).  Coordinates are rationals. -/

/-- A point (`Point3D` of `RvizViewer/types`). -/
structure Point3D where
  x : ℚ
  y : ℚ
  z : ℚ
deriving DecidableEq, Repr

/-- An r,g,b,a colour (`Color` of `RvizViewer/types`). -/
structure Color where
  r : ℚ
  g : ℚ
  b : ℚ
  a : ℚ
deriving DecidableEq, Repr

/-- The integer voxel cell of a point:
`Math.floor(coord / voxelSize)` per axis (octree.ts 325-327). -/
def voxelKey (voxelSize : ℚ) (p : Point3D) : Int × Int × Int :=
  (⌊p.x / voxelSize⌋, ⌊p.y / voxelSize⌋, ⌊p.z / voxelSize⌋)

/-- One entry of the `voxelMap`: running coordinate sums, optional
running colour sums (present iff the first point of the cell carried a
colour), and the number of accumulated points. -/
structure VoxelAcc where
  point : Point3D
  color : Option Color
  count : Nat
deriving DecidableEq, Repr

/-- `voxelMap.get(key)` hit or insertion (octree.ts 330-348): on a hit
the position and (when both sides have one) the colour are accumulated
and the count incremented; on a miss a fresh entry is created — the JS
`a: color.a || 1` falls back to 1 when the alpha is 0 (falsy). -/
def voxelUpdate (key : Int × Int × Int) (p : Point3D) (c : Option Color) :
    List ((Int × Int × Int) × VoxelAcc) → List ((Int × Int × Int) × VoxelAcc)
  | [] =>
    [(key, ⟨⟨p.x, p.y, p.z⟩,
      c.map (fun col => ⟨col.r, col.g, col.b, if col.a = 0 then 1 else col.a⟩), 1⟩)]
  | (k, acc) :: rest =>
    if k = key then
      (k, ⟨⟨acc.point.x + p.x, acc.point.y + p.y, acc.point.z + p.z⟩,
        match acc.color, c with
        | some ec, some cc => some ⟨ec.r + cc.r, ec.g + cc.g, ec.b + cc.b, ec.a⟩
        | _, _ => acc.color,
        acc.count + 1⟩) :: rest
    else (k, acc) :: voxelUpdate key p c rest

/-- The accumulation loop of `voxelDownsample` (octree.ts 318-349),
assigning every point (with its colour at the same index, when colours
are present) to its voxel cell.  The `Map` preserves insertion order,
modelled by the association list. -/
def voxelGroupsAux (voxelSize : ℚ) (hasColors : Bool) (colors : List Color) :
    List Point3D → Nat → List ((Int × Int × Int) × VoxelAcc) →
      List ((Int × Int × Int) × VoxelAcc)
  | [], _, m => m
  | p :: ps, i, m =>
    voxelGroupsAux voxelSize hasColors colors ps (i + 1)
      (voxelUpdate (voxelKey voxelSize p) p
        (if hasColors then colors.get? i else none) m)

/-- The filled `voxelMap` for a point list. -/
def voxelGroups (voxelSize : ℚ) (points : List Point3D) (colors : List Color) :
    List ((Int × Int × Int) × VoxelAcc) :=
  voxelGroupsAux voxelSize (colors.length > 0) colors points 0 []

/-- Embedding of `voxelDownsample` (octree.ts 306-377): one averaged
point (and averaged colour, alpha kept as accumulated) per occupied
voxel cell, in map insertion order. -/
def voxelDownsample (points : List Point3D) (colors : Option (List Color)) (voxelSize : ℚ) :
    List Point3D × Option (List Color) :=
  if points.isEmpty then ([], none)
  else
    let cs := colors.getD []
    let groups := voxelGroups voxelSize points cs
    let resultPoints := groups.map (fun g =>
      (⟨g.2.point.x / g.2.count, g.2.point.y / g.2.count, g.2.point.z / g.2.count⟩ : Point3D))
    let resultColors := groups.filterMap (fun g =>
      g.2.color.map (fun col =>
        (⟨col.r / g.2.count, col.g / g.2.count, col.b / g.2.count, col.a⟩ : Color)))
    (resultPoints,
      if cs.length > 0 && !resultColors.isEmpty then some resultColors else none)

/-! ### Octree -/

/-- Node bounds (`OctreeNode.bounds`, octree.ts 10-15). -/
structure OBounds where
  min : Point3D
  max : Point3D
  center : Point3D
  size : ℚ
deriving DecidableEq, Repr

/-- `calculateBounds` (octree.ts 62-114): exact min/max over all points,
center the midpoint, size the largest extent; zeros for an empty list. -/
def calculateBounds (points : List Point3D) : OBounds :=
  match points with
  | [] => ⟨⟨0, 0, 0⟩, ⟨0, 0, 0⟩, ⟨0, 0, 0⟩, 0⟩
  | p0 :: rest =>
    let mn := rest.foldl (fun (m : Point3D) p => ⟨min m.x p.x, min m.y p.y, min m.z p.z⟩) p0
    let mx := rest.foldl (fun (m : Point3D) p => ⟨max m.x p.x, max m.y p.y, max m.z p.z⟩) p0
    ⟨mn, mx, ⟨(mn.x + mx.x) / 2, (mn.y + mx.y) / 2, (mn.z + mx.z) / 2⟩,
      max (mx.x - mn.x) (max (mx.y - mn.y) (mx.z - mn.z))⟩

/-- An octree node: either a terminal leaf holding its points (and
colours, when any) verbatim, or an internal node with its non-empty
children (octree.ts `OctreeNode`; a node never holds both points and
children). -/
inductive OctreeNode where
  | leaf (bounds : OBounds) (level : Nat) (pointCount : Nat)
      (points : List Point3D) (colors : Option (List Color)) : OctreeNode
  | node (bounds : OBounds) (level : Nat) (pointCount : Nat)
      (children : List OctreeNode) : OctreeNode
deriving Repr

/-- The 3-bit child index (octree.ts 159-164):
`bit0 = x ≥ center.x`, `bit1 = y ≥ center.y`, `bit2 = z ≥ center.z`. -/
def octantIndex (center : Point3D) (p : Point3D) : Nat :=
  (if center.x ≤ p.x then 1 else 0) + (if center.y ≤ p.y then 2 else 0)
    + (if center.z ≤ p.z then 4 else 0)

/-- `calculateChildBounds` (octree.ts 213-239): one octant of the parent,
selected per axis by the corresponding bit, with midpoint center and
half the parent's size. -/
def calculateChildBounds (b : OBounds) (i : Nat) : OBounds :=
  let mn : Point3D := ⟨if i % 2 = 1 then b.center.x else b.min.x,
    if i / 2 % 2 = 1 then b.center.y else b.min.y,
    if i / 4 % 2 = 1 then b.center.z else b.min.z⟩
  let mx : Point3D := ⟨if i % 2 = 1 then b.max.x else b.center.x,
    if i / 2 % 2 = 1 then b.max.y else b.center.y,
    if i / 4 % 2 = 1 then b.max.z else b.center.z⟩
  ⟨mn, mx, ⟨(mn.x + mx.x) / 2, (mn.y + mx.y) / 2, (mn.z + mx.z) / 2⟩, b.size / 2⟩

/-- Pair each point with the colour at the same index
(`const color = colors[i]`, undefined past the end). -/
def pairColors : List Point3D → List Color → List (Point3D × Option Color)
  | [], _ => []
  | p :: ps, [] => (p, none) :: pairColors ps []
  | p :: ps, c :: cs => (p, some c) :: pairColors ps cs

/-- Embedding of `buildOctreeRecursive` (octree.ts 119-208).  If the
point count is small enough, the maximum depth is reached, or the node
is too small, the node is a terminal leaf holding its points verbatim;
otherwise the points are split by `octantIndex` against the node's
center and each non-empty octant becomes a recursively built child
(children with zero points are omitted).  A point's colour follows it
when present (`if (color) childColorsArray.push(color)`). -/
def buildOctreeRecursive (bounds : OBounds) (points : List Point3D) (colors : List Color)
    (level maxPointsPerNode maxDepth : Nat) (minNodeSize : ℚ) : OctreeNode :=
  if points.length ≤ maxPointsPerNode ∨ maxDepth ≤ level ∨ bounds.size < minNodeSize then
    .leaf bounds level points.length points
      (if colors.length > 0 then some colors else none)
  else
    let pcs := pairColors points colors
    .node bounds level points.length
      ((List.range 8).filterMap (fun i =>
        let group := pcs.filter (fun pc => octantIndex bounds.center pc.1 = i)
        if group.isEmpty then none
        else some (buildOctreeRecursive (calculateChildBounds bounds i)
          (group.map (fun pc => pc.1)) (group.filterMap (fun pc => pc.2))
          (level + 1) maxPointsPerNode maxDepth minNodeSize)))
termination_by maxDepth - level
decreasing_by omega

/-- Embedding of `buildOctree` (octree.ts 32-57): root spans the
dataset's bounds, recursion starts at level 0. -/
def buildOctree (points : List Point3D) (colors : List Color)
    (maxPointsPerNode maxDepth : Nat) (minNodeSize : ℚ) : OctreeNode :=
  buildOctreeRecursive (calculateBounds points) points colors 0
    maxPointsPerNode maxDepth minNodeSize

/-- The point count stored at a node. -/
def OctreeNode.pointCount : OctreeNode → Nat
  | .leaf _ _ pc _ _ => pc
  | .node _ _ pc _ => pc

/-- All points held by the leaves of a tree, in traversal order. -/
def OctreeNode.leafPoints : OctreeNode → List Point3D
  | .leaf _ _ _ pts _ => pts
  | .node _ _ _ children =>
    (children.attach.map (fun c => OctreeNode.leafPoints c.1)).flatten
decreasing_by
  have := List.sizeOf_lt_of_mem c.2
  simp
  omega

/-- Every leaf satisfies the termination disjunction:
`pointCount ≤ maxPointsPerNode ∨ level ≥ maxDepth ∨ size < minNodeSize`. -/
def OctreeNode.leavesOk (maxPointsPerNode maxDepth : Nat) (minNodeSize : ℚ) :
    OctreeNode → Prop
  | .leaf bounds level pc _ _ =>
    pc ≤ maxPointsPerNode ∨ maxDepth ≤ level ∨ bounds.size < minNodeSize
  | .node _ _ _ children =>
    ∀ c ∈ children.attach, OctreeNode.leavesOk maxPointsPerNode maxDepth minNodeSize c.1
decreasing_by
  have := List.sizeOf_lt_of_mem c.2
  simp
  omega

/-- Every internal node's point count is the sum of its children's, and
every leaf's point count is the length of its stored point list. -/
def OctreeNode.countsOk : OctreeNode → Prop
  | .leaf _ _ pc pts _ => pc = pts.length
  | .node _ _ pc children =>
    pc = (children.attach.map (fun c => c.1.pointCount)).sum
      ∧ ∀ c ∈ children.attach, OctreeNode.countsOk c.1
decreasing_by
  all_goals have := List.sizeOf_lt_of_mem c.2
  all_goals simp
  all_goals omega

/-! ## ASCII PCD parsers

Models of the two ASCII decoders.

`parsePCDASCII` embeds the data loop of the function of the same name in
`src/workers/pcd-parser.worker.ts`.  The header scan is lexical, so the
model receives its outcome directly: `pointCount` (the POINTS value),
`hasColor` (whether FIELDS lists `rgb` or all of `r`, `g`, `b`), and the
list of data lines found after the `DATA ascii` line.  A data line is
`none` when the source skips it before tokenising (blank, or starting
with a hash) and is otherwise the list of numeric tokens that survive
`split/map parseFloat/filter not-NaN`.

`parseASCIIData` embeds the function of the same name in
`src/components/RvizViewer/utils/pcdParser.ts`.  Field indices come from
`header.fields.indexOf`; an absent field (`-1`) is modelled as `none`
(the source throws when `x`, `y` or `z` is missing, so those three are
plain `Nat`).  A token is `none` when `parseFloat` yields NaN (non-numeric
text, or an access past the end of the line); a colour channel that ends
up NaN is likewise `none`.  `header.points` only sizes a preallocated
array that is truncated to the number of accepted points before
returning, so it does not affect the result and is not a parameter.

JS bit operations first convert their operand with ToInt32 (`jsToInt32`);
`& 0xff`, like storing into a `Uint8Array`, keeps the low byte
(`toUint8`). -/

def jsToInt32 (n : Int) : Int := (n + 2 ^ 31) % 2 ^ 32 - 2 ^ 31

def toUint8 (n : Int) : Nat := (n % 256).toNat

/-- `Math.min(acc, v)` with accumulator `none` standing for `Infinity`. -/
def omin (o : Option ℚ) (v : ℚ) : Option ℚ :=
  some (match o with | none => v | some m => min m v)

/-- `Math.max(acc, v)` with accumulator `none` standing for `-Infinity`. -/
def omax (o : Option ℚ) (v : ℚ) : Option ℚ :=
  some (match o with | none => v | some m => max m v)

/-- JS `a || b` on a number option: `0` (falsy) and a missing option both
fall back to the default. -/
def jsOrNat : Option Nat → Nat → Nat
  | some n, d => if n = 0 then d else n
  | none, d => d

/-- JS `a || b` on a rational option. -/
def jsOrRat : Option ℚ → ℚ → ℚ
  | some q, d => if q = 0 then d else q
  | none, d => d

/-- Result record of the worker parser (its `ParsedPointCloud`), with the
flat `Float32Array`/`Uint8Array` buffers kept as lists of triples. -/
structure ParsedPointCloud where
  points : List (ℚ × ℚ × ℚ)
  colors : List (Nat × Nat × Nat)
  count : Nat
  bmin : ℚ × ℚ × ℚ
  bmax : ℚ × ℚ × ℚ
  bcenter : ℚ × ℚ × ℚ
  deriving Repr, DecidableEq

/-- Accumulator of the worker data loop: stored points and colours plus
the six running bounds. -/
structure WorkerAcc where
  pts : List (ℚ × ℚ × ℚ)
  cols : List (Nat × Nat × Nat)
  minX : Option ℚ
  minY : Option ℚ
  minZ : Option ℚ
  maxX : Option ℚ
  maxY : Option ℚ
  maxZ : Option ℚ
  deriving Repr, DecidableEq

/-- The initial accumulator: no points, bounds at `±Infinity`. -/
def emptyWorkerAcc : WorkerAcc := ⟨[], [], none, none, none, none, none, none⟩

/-- Colour bytes the worker stores for one accepted line: with six or
more values the separate channels are multiplied by 255; with four or
five, `values[3]` is a packed integer read with shifts `>> 16`, `>> 8`
(red from the high byte); otherwise white. -/
def workerColor (hasColor : Bool) (values : List ℚ) : Nat × Nat × Nat :=
  if hasColor then
    if 6 ≤ values.length then
      (toUint8 ⌊values.getD 3 1 * 255⌋, toUint8 ⌊values.getD 4 1 * 255⌋,
        toUint8 ⌊values.getD 5 1 * 255⌋)
    else if 4 ≤ values.length then
      (toUint8 ((jsToInt32 ⌊values.getD 3 0⌋).fdiv 65536),
        toUint8 ((jsToInt32 ⌊values.getD 3 0⌋).fdiv 256),
        toUint8 (jsToInt32 ⌊values.getD 3 0⌋))
    else (255, 255, 255)
  else (255, 255, 255)

/-- One accepted line of the worker loop: update the bounds and append
the position and colour. -/
def workerStep (hasColor : Bool) (acc : WorkerAcc) (values : List ℚ) : WorkerAcc :=
  { pts := acc.pts ++ [(values.getD 0 0, values.getD 1 0, values.getD 2 0)]
    cols := acc.cols ++ [workerColor hasColor values]
    minX := omin acc.minX (values.getD 0 0)
    minY := omin acc.minY (values.getD 1 0)
    minZ := omin acc.minZ (values.getD 2 0)
    maxX := omax acc.maxX (values.getD 0 0)
    maxY := omax acc.maxY (values.getD 1 0)
    maxZ := omax acc.maxZ (values.getD 2 0) }

/-- The worker data loop: `for (i; i < lines.length && pointIndex < final;
i++)`, skipping blank lines, lines off the downsample stride, and lines
with fewer than three numeric values. -/
def workerLoop (final step : Nat) (hasColor : Bool) :
    List (Option (List ℚ)) → Nat → WorkerAcc → WorkerAcc
  | [], _, acc => acc
  | none :: rest, i, acc =>
    if final ≤ acc.pts.length then acc
    else workerLoop final step hasColor rest (i + 1) acc
  | some values :: rest, i, acc =>
    if final ≤ acc.pts.length then acc
    else if i % step ≠ 0 then workerLoop final step hasColor rest (i + 1) acc
    else if values.length < 3 then workerLoop final step hasColor rest (i + 1) acc
    else workerLoop final step hasColor rest (i + 1) (workerStep hasColor acc values)

/-- `parsePCDASCII` from `src/workers/pcd-parser.worker.ts`: throw when
the header gave no points, apply `maxPoints` and `downsampleRatio`, run
the data loop, and finalise the bounds (an untouched `Infinity` bound
becomes 0) and `center = (min + max) / 2`. -/
def parsePCDASCII (pointCount : Nat) (hasColor : Bool)
    (dataLines : List (Option (List ℚ)))
    (maxPointsOpt : Option Nat) (ratioOpt : Option ℚ) :
    Except String ParsedPointCloud :=
  if pointCount = 0 then .error "Invalid PCD file format"
  else
    let maxPoints := jsOrNat maxPointsOpt pointCount
    let actualPointCount := min pointCount maxPoints
    let downsampleRatio := jsOrRat ratioOpt 1
    let finalPointCount := (⌊(actualPointCount : ℚ) * downsampleRatio⌋).toNat
    let step := max 1 (⌊1 / downsampleRatio⌋).toNat
    let acc := workerLoop finalPointCount step hasColor dataLines 0 emptyWorkerAcc
    let fminX := acc.minX.getD 0
    let fminY := acc.minY.getD 0
    let fminZ := acc.minZ.getD 0
    let fmaxX := acc.maxX.getD 0
    let fmaxY := acc.maxY.getD 0
    let fmaxZ := acc.maxZ.getD 0
    .ok { points := acc.pts, colors := acc.cols, count := acc.pts.length,
          bmin := (fminX, fminY, fminZ), bmax := (fmaxX, fmaxY, fmaxZ),
          bcenter := ((fminX + fmaxX) / 2, (fminY + fmaxY) / 2, (fminZ + fmaxZ) / 2) }

/-- Field indices of `parseASCIIData`, from `header.fields.indexOf`:
`x`, `y`, `z` are required (the source throws when one is `-1`), the
colour fields may be absent. -/
structure FieldIdx where
  x : Nat
  y : Nat
  z : Nat
  r : Option Nat
  g : Option Nat
  b : Option Nat
  rgb : Option Nat
  deriving Repr, DecidableEq

/-- `parseFloat(values[i])` on a tokenised line: reading past the end of
the line gives `undefined`, hence NaN (`none`). -/
def vget (values : List (Option ℚ)) (i : Nat) : Option ℚ := values.getD i none

/-- Packed-rgb decoding of `parseASCIIData`: red is the LOW byte
`floor(rgb) & 0xff`, green `floor(rgb / 256) & 0xff`, blue
`floor(rgb / 65536) & 0xff`, each divided by 255.  A NaN token decodes to
black because `ToInt32(NaN) = 0`. -/
def asciiPackedColor (t : Option ℚ) : Option ℚ × Option ℚ × Option ℚ :=
  match t with
  | some v =>
    (some ((toUint8 (jsToInt32 ⌊v⌋) : ℚ) / 255),
      some ((toUint8 (jsToInt32 ⌊v / 256⌋) : ℚ) / 255),
      some ((toUint8 (jsToInt32 ⌊v / 65536⌋) : ℚ) / 255))
  | none => (some 0, some 0, some 0)

/-- `rIndex !== -1 && rIndex < numValues ? parseFloat(values[rIndex]) : 1`. -/
def asciiChannel (idx : Option Nat) (values : List (Option ℚ)) : Option ℚ :=
  match idx with
  | some j => if j < values.length then vget values j else some 1
  | none => some 1

/-- `v > 1 ? v / 255 : v`; a NaN channel (`none`) fails the comparison
and is kept as NaN. -/
def asciiNorm (t : Option ℚ) : Option ℚ :=
  t.map fun v => if 1 < v then v / 255 else v

/-- Colour of one accepted line of `parseASCIIData` (`a` is always 1 in
the source and omitted): the packed branch runs when the `rgb` field
exists and its index is within the line, otherwise the separate-channel
branch with `> 1` normalisation. -/
def asciiColor (fi : FieldIdx) (values : List (Option ℚ)) :
    Option ℚ × Option ℚ × Option ℚ :=
  match fi.rgb with
  | some j =>
    if j < values.length then asciiPackedColor (vget values j)
    else (asciiNorm (asciiChannel fi.r values), asciiNorm (asciiChannel fi.g values),
      asciiNorm (asciiChannel fi.b values))
  | none =>
    (asciiNorm (asciiChannel fi.r values), asciiNorm (asciiChannel fi.g values),
      asciiNorm (asciiChannel fi.b values))

/-- One line of `parseASCIIData`: dropped (`none`) exactly when `x`, `y`
or `z` parses to NaN. -/
def asciiLine (fi : FieldIdx) (values : List (Option ℚ)) :
    Option ((ℚ × ℚ × ℚ) × (Option ℚ × Option ℚ × Option ℚ)) :=
  match vget values fi.x, vget values fi.y, vget values fi.z with
  | some x, some y, some z => some ((x, y, z), asciiColor fi values)
  | _, _, _ => none

/-- `hasColor` of `parseASCIIData`: some colour field is present. -/
def FieldIdx.hasColor (fi : FieldIdx) : Bool :=
  fi.r.isSome || fi.g.isSome || fi.b.isSome || fi.rgb.isSome

/-- `parseASCIIData`: each line with numeric `x`, `y`, `z` contributes one
point (in order); the colour list is returned only when a colour field is
present and at least one point was accepted. -/
def parseASCIIData (fi : FieldIdx) (lines : List (List (Option ℚ))) :
    List (ℚ × ℚ × ℚ) × Option (List (Option ℚ × Option ℚ × Option ℚ)) :=
  let accepted := lines.filterMap (asciiLine fi)
  (accepted.map (fun a => a.1),
    if fi.hasColor && !accepted.isEmpty then some (accepted.map (fun a => a.2)) else none)

/-- `o` is the running minimum of the list `l` (`none` iff `l` is empty). -/
def OptMinOf (o : Option ℚ) (l : List ℚ) : Prop :=
  match o with
  | none => l = []
  | some m => m ∈ l ∧ ∀ v ∈ l, m ≤ v

/-- `o` is the running maximum of the list `l` (`none` iff `l` is empty). -/
def OptMaxOf (o : Option ℚ) (l : List ℚ) : Prop :=
  match o with
  | none => l = []
  | some m => m ∈ l ∧ ∀ v ∈ l, v ≤ m

/-! ## Helper lemmas -/

theorem lzfIter_next_length (size : Nat) (input : List Nat) (out : Array Nat)
    (i2 : List Nat) (o2 : Array Nat) (h : lzfIter size input out = .next i2 o2) :
    i2.length < input.length := by
  match input with
  | [] => simp [lzfIter] at h
  | ctrl :: rest =>
    unfold lzfIter at h
    repeat' split at h
    all_goals try injections
    all_goals subst_vars
    all_goals try injections
    all_goals subst_vars
    all_goals simp_all [List.length_drop]
    all_goals omega

theorem lzfCopyMatch_size (src : Nat) :
    ∀ (n i : Nat) (out : Array Nat), (lzfCopyMatch src i n out).size = out.size + n := by
  intro n
  induction n with
  | zero => intro i out; simp [lzfCopyMatch]
  | succ m ih =>
    intro i out
    simp [lzfCopyMatch, ih]
    omega

theorem lzfCopyMatch_getD_of_lt (src : Nat) :
    ∀ (n i : Nat) (out : Array Nat) (j : Nat), j < out.size →
      (lzfCopyMatch src i n out).getD j 0 = out.getD j 0 := by
  intro n
  induction n with
  | zero => intro i out j _; simp [lzfCopyMatch]
  | succ m ih =>
    intro i out j hj
    rw [lzfCopyMatch, ih (i + 1) (out.push (out.getD (src + i) 0)) j (by simp; omega)]
    simp [Array.getD, Array.getElem_push, hj]
    intro hc
    omega

theorem lzfCopyMatch_overlap (src : Nat) :
    ∀ (n i : Nat) (out : Array Nat), src + i < out.size → ∀ k, k < n →
      (lzfCopyMatch src i n out).getD (out.size + k) 0
        = (lzfCopyMatch src i n out).getD (src + i + k) 0 := by
  intro n
  induction n with
  | zero => intro i out _ k hk; omega
  | succ m ih =>
    intro i out h k hk
    rw [lzfCopyMatch]
    rcases Nat.eq_zero_or_pos k with hk0 | hkpos
    · subst hk0
      rw [lzfCopyMatch_getD_of_lt src m (i + 1) _ (out.size + 0) (by simp),
          lzfCopyMatch_getD_of_lt src m (i + 1) _ (src + i + 0) (by simp; omega)]
      simp [Array.getD, Array.getElem_push, h, Nat.lt_succ_of_lt h]
    · obtain ⟨k1, rfl⟩ : ∃ k1, k = k1 + 1 := ⟨k - 1, by omega⟩
      have := ih (i + 1) (out.push (out.getD (src + i) 0)) (by simp; omega) k1 (by omega)
      simp only [Array.size_push] at this
      have e1 : out.size + (k1 + 1) = out.size + 1 + k1 := by omega
      have e2 : src + i + (k1 + 1) = src + (i + 1) + k1 := by omega
      rw [e1, e2]
      exact this

theorem lzfIter_nil (size : Nat) (out : Array Nat) : lzfIter size [] out = .done out := rfl

theorem lzfIter_done_eq (size : Nat) (input : List Nat) (out o : Array Nat)
    (h : lzfIter size input out = .done o) : o = out := by
  match input with
  | [] => unfold lzfIter at h; cases h; rfl
  | ctrl :: rest =>
    unfold lzfIter at h
    repeat' split at h
    all_goals try injections
    all_goals subst_vars
    all_goals try injections
    all_goals subst_vars
    all_goals simp_all

theorem lzfIter_next_size (size : Nat) (input i2 : List Nat) (out o2 : Array Nat)
    (h : lzfIter size input out = .next i2 o2) :
    out.size < o2.size ∧ o2.size ≤ size := by
  match input with
  | [] => simp [lzfIter] at h
  | ctrl :: rest =>
    unfold lzfIter at h
    repeat' split at h
    all_goals try injections
    all_goals subst_vars
    all_goals try injections
    all_goals subst_vars
    all_goals simp only [Array.size_append, List.length_take, lzfCopyMatch_size,
      Array.size_toArray]
    all_goals omega

theorem lzfIter_fail_invalid (size : Nat) (input : List Nat) (out : Array Nat)
    (s : Int) (p : Nat)
    (h : lzfIter size input out = .fail (.invalidBackReference s p)) :
    (s < 0 ∨ (p : Int) ≤ s) ∧ p = out.size := by
  match input with
  | [] => simp [lzfIter] at h
  | ctrl :: rest =>
    unfold lzfIter at h
    repeat' split at h
    all_goals try injections
    all_goals subst_vars
    all_goals try injections
    all_goals subst_vars
    all_goals simp_all
    all_goals omega

theorem lzfRun_done (size : Nat) (input : List Nat) (out o : Array Nat)
    (h : lzfIter size input out = .done o) : lzfRun size input out = .ok o := by
  rw [lzfRun.eq_def]
  split <;> simp_all

theorem lzfRun_fail (size : Nat) (input : List Nat) (out : Array Nat) (e : LzfError)
    (h : lzfIter size input out = .fail e) : lzfRun size input out = .error e := by
  rw [lzfRun.eq_def]
  split <;> simp_all

theorem lzfRun_next (size : Nat) (input i2 : List Nat) (out o2 : Array Nat)
    (h : lzfIter size input out = .next i2 o2) :
    lzfRun size input out = lzfRun size i2 o2 := by
  rw [lzfRun.eq_def]
  split <;> simp_all

theorem lzfRun_size_le_aux (size : Nat) :
    ∀ (n : Nat) (input : List Nat) (out : Array Nat), input.length ≤ n → out.size ≤ size →
      ∀ out2, lzfRun size input out = .ok out2 → out2.size ≤ size := by
  intro n
  induction n with
  | zero =>
    intro input out hlen hout out2 heq
    have hnil : input = [] := List.eq_nil_of_length_eq_zero (by omega)
    subst hnil
    rw [lzfRun_done size [] out out (lzfIter_nil size out)] at heq
    cases heq
    exact hout
  | succ m ih =>
    intro input out hlen hout out2 heq
    cases hi : lzfIter size input out with
    | done o =>
      rw [lzfRun_done size input out o hi] at heq
      injection heq with h2
      rw [← h2, lzfIter_done_eq size input out o hi]
      exact hout
    | fail e =>
      rw [lzfRun_fail size input out e hi] at heq
      cases heq
    | next i2 o2 =>
      rw [lzfRun_next size input i2 out o2 hi] at heq
      have hlt := lzfIter_next_length size input out i2 o2 hi
      have hsz := lzfIter_next_size size input i2 out o2 hi
      exact ih i2 o2 (by omega) hsz.2 out2 heq

theorem lzfRun_size_le (size : Nat) (input : List Nat) (out : Array Nat)
    (hout : out.size ≤ size) (out2 : Array Nat) (heq : lzfRun size input out = .ok out2) :
    out2.size ≤ size :=
  lzfRun_size_le_aux size input.length input out le_rfl hout out2 heq

theorem lzfRun_invalid_inv_aux (size : Nat) :
    ∀ (n : Nat) (input : List Nat) (out : Array Nat), input.length ≤ n →
      ∀ (s : Int) (p : Nat),
        lzfRun size input out = .error (.invalidBackReference s p) →
        s < 0 ∨ (p : Int) ≤ s := by
  intro n
  induction n with
  | zero =>
    intro input out hlen s p heq
    have hnil : input = [] := List.eq_nil_of_length_eq_zero (by omega)
    subst hnil
    rw [lzfRun_done size [] out out (lzfIter_nil size out)] at heq
    cases heq
  | succ m ih =>
    intro input out hlen s p heq
    cases hi : lzfIter size input out with
    | done o =>
      rw [lzfRun_done size input out o hi] at heq
      cases heq
    | fail e =>
      rw [lzfRun_fail size input out e hi] at heq
      cases heq
      exact (lzfIter_fail_invalid size input out s p hi).1
    | next i2 o2 =>
      rw [lzfRun_next size input i2 out o2 hi] at heq
      have hlt := lzfIter_next_length size input out i2 o2 hi
      exact ih i2 o2 (by omega) s p heq

theorem lzfIter_literal_eq (size ctrl : Nat) (rest : List Nat) (out : Array Nat)
    (hsz : out.size < size) (h2 : ctrl < 32) (h3 : ctrl + 1 ≤ rest.length)
    (h4 : out.size + (ctrl + 1) ≤ size) :
    lzfIter size (ctrl :: rest) out
      = .next (rest.drop (ctrl + 1)) (out ++ (rest.take (ctrl + 1)).toArray) := by
  have hn1 : ¬ size ≤ out.size := by omega
  have e1 : min (ctrl + 1) rest.length = ctrl + 1 := by omega
  have e2 : min (ctrl + 1) (size - out.size) = ctrl + 1 := by omega
  simp only [lzfIter, hn1, if_false, h2, if_true, e1, e2]
  simp

theorem lzfIter_short_match_eq (size ctrl low : Nat) (rest2 : List Nat) (out : Array Nat)
    (offEnc : Nat) (src : Int)
    (hoff : offEnc = (ctrl % 32) * 256 + low)
    (hsrc : src = (out.size : Int) - offEnc - 1)
    (hsz : out.size < size) (h32 : 32 ≤ ctrl) (h7 : ctrl / 32 ≠ 7)
    (hs0 : 0 ≤ src) (hs1 : src < (out.size : Int))
    (hlen : out.size + (ctrl / 32 + 2) ≤ size) :
    lzfIter size (ctrl :: low :: rest2) out
      = .next rest2 (lzfCopyMatch src.toNat 0 (ctrl / 32 + 2) out) := by
  subst hoff hsrc
  have hn1 : ¬ size ≤ out.size := by omega
  have hn2 : ¬ ctrl < 32 := by omega
  have hnc : ¬ ((out.size : Int) - (((ctrl % 32) * 256 + low : Nat) : Int) - 1 < 0
      ∨ (out.size : Int) ≤ (out.size : Int) - (((ctrl % 32) * 256 + low : Nat) : Int) - 1) := by
    omega
  have e2 : min (ctrl / 32 + 2) (size - out.size) = ctrl / 32 + 2 := by omega
  simp only [lzfIter, hn1, if_false, hn2, h7, hnc, e2]
  simp

theorem lzfIter_ext_match_eq (size ctrl ext low : Nat) (rest2 : List Nat) (out : Array Nat)
    (offEnc : Nat) (src : Int)
    (hoff : offEnc = (ctrl % 32) * 256 + low)
    (hsrc : src = (out.size : Int) - offEnc - 1)
    (hsz : out.size < size) (h32 : 32 ≤ ctrl) (h7 : ctrl / 32 = 7)
    (hs0 : 0 ≤ src) (hs1 : src < (out.size : Int))
    (hlen : out.size + (7 + ext + 2) ≤ size) :
    lzfIter size (ctrl :: ext :: low :: rest2) out
      = .next rest2 (lzfCopyMatch src.toNat 0 (7 + ext + 2) out) := by
  subst hoff hsrc
  have hn1 : ¬ size ≤ out.size := by omega
  have hn2 : ¬ ctrl < 32 := by omega
  have hnc : ¬ ((out.size : Int) - (((ctrl % 32) * 256 + low : Nat) : Int) - 1 < 0
      ∨ (out.size : Int) ≤ (out.size : Int) - (((ctrl % 32) * 256 + low : Nat) : Int) - 1) := by
    omega
  have e2 : min (7 + ext + 2) (size - out.size) = 7 + ext + 2 := by omega
  simp only [lzfIter, hn1, if_false, hn2, h7, hnc, e2]
  simp

theorem lzfIter_short_invalid_eq (size ctrl low : Nat) (rest2 : List Nat) (out : Array Nat)
    (offEnc : Nat) (src : Int)
    (hoff : offEnc = (ctrl % 32) * 256 + low)
    (hsrc : src = (out.size : Int) - offEnc - 1)
    (hsz : out.size < size) (h32 : 32 ≤ ctrl) (h7 : ctrl / 32 ≠ 7)
    (hbad : src < 0 ∨ (out.size : Int) ≤ src) :
    lzfIter size (ctrl :: low :: rest2) out
      = .fail (.invalidBackReference src out.size) := by
  subst hoff hsrc
  have hn1 : ¬ size ≤ out.size := by omega
  have hn2 : ¬ ctrl < 32 := by omega
  simp only [lzfIter, hn1, if_false, hn2, h7]
  rw [if_pos hbad]

theorem lzfIter_ext_invalid_eq (size ctrl ext low : Nat) (rest2 : List Nat) (out : Array Nat)
    (offEnc : Nat) (src : Int)
    (hoff : offEnc = (ctrl % 32) * 256 + low)
    (hsrc : src = (out.size : Int) - offEnc - 1)
    (hsz : out.size < size) (h32 : 32 ≤ ctrl) (h7 : ctrl / 32 = 7)
    (hbad : src < 0 ∨ (out.size : Int) ≤ src) :
    lzfIter size (ctrl :: ext :: low :: rest2) out
      = .fail (.invalidBackReference src out.size) := by
  subst hoff hsrc
  have hn1 : ¬ size ≤ out.size := by omega
  have hn2 : ¬ ctrl < 32 := by omega
  simp only [lzfIter, hn1, if_false, hn2, h7]
  rw [if_pos hbad]
  simp

theorem lzfDecompress_error_eq (compressed : List Nat) (size : Nat) (e : LzfError)
    (hr : lzfRun size compressed #[] = .error e) :
    lzfDecompress compressed size = .error e := by
  unfold lzfDecompress
  rw [hr]

theorem lzfDecompress_ok_eq (compressed : List Nat) (size : Nat) (out : Array Nat)
    (hr : lzfRun size compressed #[] = .ok out) :
    lzfDecompress compressed size =
      if out.size = size then .ok out.toList
      else if 100 * (size - out.size) > size then .error (.sizeMismatch size out.size)
      else .ok (out.toList ++ List.replicate (size - out.size) 0) := by
  unfold lzfDecompress
  rw [hr]

/-! ## Claim theorems for the LZF codec -/

/-- C3.  One control byte is processed per loop iteration of
`lzfDecompress`: a control byte `ctrl < 32` copies a literal run of
exactly `ctrl + 1` raw input bytes to the output; a control byte
`ctrl ≥ 32` is a back-reference of length `(ctrl >> 5) + 2` (with one
extra input byte added to the length when `ctrl >> 5 = 7`) whose absolute
source position is `outputPos - (((ctrl & 0x1f) << 8) | nextByte) - 1`,
copied byte-by-byte in increasing order so that an overlapping
source/destination range replicates the bytes already written (last
conjunct). -/
theorem lzf_control_byte_step :
    (∀ (size ctrl : Nat) (rest : List Nat) (out : Array Nat),
        out.size < size → ctrl < 32 → ctrl + 1 ≤ rest.length →
        out.size + (ctrl + 1) ≤ size →
        lzfRun size (ctrl :: rest) out
          = lzfRun size (rest.drop (ctrl + 1)) (out ++ (rest.take (ctrl + 1)).toArray))
    ∧ (∀ (size ctrl low : Nat) (rest2 : List Nat) (out : Array Nat) (offEnc : Nat) (src : Int),
        offEnc = (ctrl % 32) * 256 + low → src = (out.size : Int) - offEnc - 1 →
        out.size < size → 32 ≤ ctrl → ctrl / 32 ≠ 7 →
        0 ≤ src → src < (out.size : Int) → out.size + (ctrl / 32 + 2) ≤ size →
        lzfRun size (ctrl :: low :: rest2) out
          = lzfRun size rest2 (lzfCopyMatch src.toNat 0 (ctrl / 32 + 2) out))
    ∧ (∀ (size ctrl ext low : Nat) (rest2 : List Nat) (out : Array Nat) (offEnc : Nat) (src : Int),
        offEnc = (ctrl % 32) * 256 + low → src = (out.size : Int) - offEnc - 1 →
        out.size < size → 32 ≤ ctrl → ctrl / 32 = 7 →
        0 ≤ src → src < (out.size : Int) → out.size + (7 + ext + 2) ≤ size →
        lzfRun size (ctrl :: ext :: low :: rest2) out
          = lzfRun size rest2 (lzfCopyMatch src.toNat 0 (7 + ext + 2) out))
    ∧ (∀ (src len : Nat) (out : Array Nat), src < out.size →
        (lzfCopyMatch src 0 len out).size = out.size + len
        ∧ ∀ k, k < len →
            (lzfCopyMatch src 0 len out).getD (out.size + k) 0
              = (lzfCopyMatch src 0 len out).getD (src + k) 0) := by
  refine ⟨?_, ?_, ?_, ?_⟩
  · intro size ctrl rest out hsz h2 h3 h4
    exact lzfRun_next size _ _ out _ (lzfIter_literal_eq size ctrl rest out hsz h2 h3 h4)
  · intro size ctrl low rest2 out offEnc src hoff hsrc hsz h32 h7 hs0 hs1 hlen
    exact lzfRun_next size _ _ out _
      (lzfIter_short_match_eq size ctrl low rest2 out offEnc src hoff hsrc hsz h32 h7 hs0 hs1 hlen)
  · intro size ctrl ext low rest2 out offEnc src hoff hsrc hsz h32 h7 hs0 hs1 hlen
    exact lzfRun_next size _ _ out _
      (lzfIter_ext_match_eq size ctrl ext low rest2 out offEnc src hoff hsrc hsz h32 h7 hs0 hs1 hlen)
  · intro src len out hlt
    refine ⟨lzfCopyMatch_size src len 0 out, ?_⟩
    intro k hk
    have := lzfCopyMatch_overlap src len 0 out (by omega) k hk
    simpa using this

/-- C3 witness: a concrete literal step and a concrete overlapping
back-reference step, obtained by instantiating `lzf_control_byte_step`. -/
theorem lzf_control_byte_step_witness :
    lzfRun 4 [2, 5, 6, 7] #[]
      = lzfRun 4 ([5, 6, 7].drop (2 + 1)) (#[] ++ ([5, 6, 7].take (2 + 1)).toArray)
    ∧ lzfRun 4 [32, 0] #[65]
      = lzfRun 4 [] (lzfCopyMatch 0 0 (32 / 32 + 2) #[65]) := by
  constructor
  · exact lzf_control_byte_step.1 4 2 [5, 6, 7] #[] (by decide) (by decide) (by decide) (by decide)
  · exact lzf_control_byte_step.2.1 4 32 0 [] #[65] 0 0 (by decide) (by decide) (by decide)
      (by decide) (by decide) (by decide) (by decide) (by decide)

/-- C4.  `lzfDecompress` fails with the invalid-back-reference error
exactly when a back-reference's absolute source position
`outputPos - offset - 1` is negative or at least the current output
position: every invalid-back-reference error reported by `lzfDecompress`
carries a source position that is negative or ≥ the reported output
position (first conjunct), and any back-reference byte pair whose decoded
source position violates the bound makes the loop fail with exactly this
error (second and third conjuncts, short and extended length forms). -/
theorem lzf_invalid_back_reference :
    (∀ (compressed : List Nat) (size : Nat) (s : Int) (p : Nat),
        lzfDecompress compressed size = .error (.invalidBackReference s p) →
        s < 0 ∨ (p : Int) ≤ s)
    ∧ (∀ (size ctrl low : Nat) (rest2 : List Nat) (out : Array Nat) (offEnc : Nat) (src : Int),
        offEnc = (ctrl % 32) * 256 + low → src = (out.size : Int) - offEnc - 1 →
        out.size < size → 32 ≤ ctrl → ctrl / 32 ≠ 7 →
        (src < 0 ∨ (out.size : Int) ≤ src) →
        lzfRun size (ctrl :: low :: rest2) out
          = .error (.invalidBackReference src out.size))
    ∧ (∀ (size ctrl ext low : Nat) (rest2 : List Nat) (out : Array Nat) (offEnc : Nat) (src : Int),
        offEnc = (ctrl % 32) * 256 + low → src = (out.size : Int) - offEnc - 1 →
        out.size < size → 32 ≤ ctrl → ctrl / 32 = 7 →
        (src < 0 ∨ (out.size : Int) ≤ src) →
        lzfRun size (ctrl :: ext :: low :: rest2) out
          = .error (.invalidBackReference src out.size)) := by
  refine ⟨?_, ?_, ?_⟩
  · intro compressed size s p heq
    cases hr : lzfRun size compressed #[] with
    | error e =>
      rw [lzfDecompress_error_eq compressed size e hr] at heq
      cases heq
      exact lzfRun_invalid_inv_aux size compressed.length compressed #[] le_rfl s p hr
    | ok out =>
      rw [lzfDecompress_ok_eq compressed size out hr] at heq
      split at heq
      · cases heq
      · split at heq
        · simp at heq
        · cases heq
  · intro size ctrl low rest2 out offEnc src hoff hsrc hsz h32 h7 hbad
    exact lzfRun_fail size _ out _
      (lzfIter_short_invalid_eq size ctrl low rest2 out offEnc src hoff hsrc hsz h32 h7 hbad)
  · intro size ctrl ext low rest2 out offEnc src hoff hsrc hsz h32 h7 hbad
    exact lzfRun_fail size _ out _
      (lzfIter_ext_invalid_eq size ctrl ext low rest2 out offEnc src hoff hsrc hsz h32 h7 hbad)

/-- C4 witness: after one output byte, a back-reference whose encoded
offset equals the current output position (offset 1 at position 1)
decodes to source position `-1` and fails with the
invalid-back-reference error. -/
theorem lzf_invalid_back_reference_witness :
    lzfRun 5 [32, 1] #[65] = .error (.invalidBackReference (-1) 1) := by
  exact lzf_invalid_back_reference.2.1 5 32 1 [] #[65] 1 (-1) (by decide) (by decide)
    (by decide) (by decide) (by decide) (by decide)

/-- C5.  On success `lzfDecompress` returns exactly `expectedSize` bytes;
when the loop stops short with a shortfall of at most 1 percent of
`expectedSize` the remaining bytes are zero-filled and the call succeeds,
while a larger shortfall fails with the size-mismatch error and no bytes
are returned. -/
theorem lzf_size_contract :
    (∀ (compressed : List Nat) (size : Nat) (res : List Nat),
        lzfDecompress compressed size = .ok res → res.length = size)
    ∧ (∀ (compressed : List Nat) (size : Nat) (out : Array Nat),
        lzfRun size compressed #[] = .ok out → out.size < size →
        (100 * (size - out.size) ≤ size →
          lzfDecompress compressed size
            = .ok (out.toList ++ List.replicate (size - out.size) 0))
        ∧ (100 * (size - out.size) > size →
          lzfDecompress compressed size = .error (.sizeMismatch size out.size))) := by
  constructor
  · intro compressed size res heq
    cases hr : lzfRun size compressed #[] with
    | error e => rw [lzfDecompress_error_eq compressed size e hr] at heq; cases heq
    | ok out =>
      have hle : out.size ≤ size := lzfRun_size_le size compressed #[] (by simp) out hr
      rw [lzfDecompress_ok_eq compressed size out hr] at heq
      split at heq
      · cases heq
        simp_all [Array.length_toList]
      · split at heq
        · cases heq
        · cases heq
          simp [Array.length_toList]
          omega
  · intro compressed size out hr hlt
    have hne : ¬ out.size = size := by omega
    constructor
    · intro hsmall
      rw [lzfDecompress_ok_eq compressed size out hr, if_neg hne, if_neg (by omega)]
    · intro hbig
      rw [lzfDecompress_ok_eq compressed size out hr, if_neg hne, if_pos (by omega)]

set_option maxRecDepth 8000 in
/-- C5 witness: a stream producing 3 of 200 expected bytes (a 98.5
percent shortfall) fails with the size-mismatch error, and a stream
producing 99 of 100 expected bytes (a 1 percent shortfall) succeeds with
one zero byte appended. -/
theorem lzf_size_contract_witness :
    lzfDecompress [2, 10, 20, 30] 200 = .error (.sizeMismatch 200 3)
    ∧ lzfDecompress
        ([30] ++ List.replicate 31 7 ++ ([30] ++ List.replicate 31 7
          ++ ([30] ++ List.replicate 31 7 ++ ([5] ++ List.replicate 6 7)))) 100
      = .ok (List.replicate 99 7 ++ List.replicate 1 0) := by
  constructor
  · have e1 : lzfIter 200 [2, 10, 20, 30] #[] = .next [] #[10, 20, 30] := by decide
    have hr : lzfRun 200 [2, 10, 20, 30] #[] = .ok #[10, 20, 30] := by
      rw [lzfRun_next 200 _ _ _ _ e1, lzfRun_done 200 [] #[10, 20, 30] #[10, 20, 30]
        (lzfIter_nil 200 #[10, 20, 30])]
    exact (lzf_size_contract.2 [2, 10, 20, 30] 200 #[10, 20, 30] hr (by decide)).2 (by decide)
  · have e1 : lzfIter 100
        ([30] ++ List.replicate 31 7 ++ ([30] ++ List.replicate 31 7
          ++ ([30] ++ List.replicate 31 7 ++ ([5] ++ List.replicate 6 7)))) #[]
        = .next ([30] ++ List.replicate 31 7
            ++ ([30] ++ List.replicate 31 7 ++ ([5] ++ List.replicate 6 7)))
          (List.replicate 31 7).toArray := by decide
    have e2 : lzfIter 100
        ([30] ++ List.replicate 31 7
          ++ ([30] ++ List.replicate 31 7 ++ ([5] ++ List.replicate 6 7)))
        (List.replicate 31 7).toArray
        = .next ([30] ++ List.replicate 31 7 ++ ([5] ++ List.replicate 6 7))
          (List.replicate 62 7).toArray := by decide
    have e3 : lzfIter 100
        ([30] ++ List.replicate 31 7 ++ ([5] ++ List.replicate 6 7))
        (List.replicate 62 7).toArray
        = .next ([5] ++ List.replicate 6 7) (List.replicate 93 7).toArray := by decide
    have e4 : lzfIter 100 ([5] ++ List.replicate 6 7) (List.replicate 93 7).toArray
        = .next [] (List.replicate 99 7).toArray := by decide
    have hr : lzfRun 100
        ([30] ++ List.replicate 31 7 ++ ([30] ++ List.replicate 31 7
          ++ ([30] ++ List.replicate 31 7 ++ ([5] ++ List.replicate 6 7)))) #[]
        = .ok (List.replicate 99 7).toArray := by
      rw [lzfRun_next 100 _ _ _ _ e1, lzfRun_next 100 _ _ _ _ e2, lzfRun_next 100 _ _ _ _ e3,
        lzfRun_next 100 _ _ _ _ e4,
        lzfRun_done 100 [] (List.replicate 99 7).toArray (List.replicate 99 7).toArray
          (lzfIter_nil 100 (List.replicate 99 7).toArray)]
    exact (lzf_size_contract.2 _ 100 (List.replicate 99 7).toArray hr (by decide)).1 (by decide)

/-! ## Scheduler lemmas -/

theorem insertTier_perm (t : Nat × List PointCloudChunk)
    (ts : List (Nat × List PointCloudChunk)) : (insertTier t ts).Perm (t :: ts) := by
  induction ts with
  | nil => simp [insertTier]
  | cons u rest ih =>
    simp only [insertTier]
    split
    · exact List.Perm.refl _
    · exact (ih.cons u).trans (List.Perm.swap t u rest)

theorem sortTiers_perm (ts : List (Nat × List PointCloudChunk)) :
    (sortTiers ts).Perm ts := by
  induction ts with
  | nil => simp [sortTiers]
  | cons t rest ih =>
    simp only [sortTiers, List.foldr_cons]
    exact (insertTier_perm t _).trans (ih.cons t)

theorem visiblePoints_nil : visiblePoints [] = 0 := rfl

theorem visiblePoints_cons (c : PointCloudChunk) (cs : List PointCloudChunk) :
    visiblePoints (c :: cs) = (if c.visible then c.count else 0) + visiblePoints cs := by
  simp [visiblePoints, List.filter_cons]
  split <;> simp

theorem visiblePoints_hidden_map (cs : List PointCloudChunk) :
    visiblePoints (cs.map (fun c => { c with visible := false })) = 0 := by
  induction cs with
  | nil => rfl
  | cons c rest ih => simp [visiblePoints_cons, ih]

theorem visiblePoints_all_hidden (cs : List PointCloudChunk)
    (h : ∀ c ∈ cs, c.visible = false) : visiblePoints cs = 0 := by
  induction cs with
  | nil => rfl
  | cons c rest ih =>
    have hc := h c (by simp)
    have hrest := fun x hx => h x (List.mem_cons_of_mem c hx)
    simp [visiblePoints_cons, hc, ih hrest]

theorem visiblePointsTiers_hideAll (tiers : List (Nat × List PointCloudChunk)) :
    visiblePointsTiers (hideAll tiers) = 0 := by
  induction tiers with
  | nil => rfl
  | cons t rest ih =>
    simp [visiblePointsTiers, hideAll, visiblePoints_hidden_map] at ih ⊢
    simpa [hideAll] using ih

theorem processTier_nil (opts : RenderOptions) (inF : ChunkBounds → Bool) (rc vc : Nat) :
    processTier opts inF [] rc vc = ([], rc, vc, false) := rfl

theorem processTier_culled (opts : RenderOptions) (inF : ChunkBounds → Bool)
    (c : PointCloudChunk) (rest : List PointCloudChunk) (rc vc : Nat)
    (h1 : (opts.enableFrustumCulling && !(inF c.bounds)) = true) :
    processTier opts inF (c :: rest) rc vc
      = ({ c with visible := false } :: (processTier opts inF rest rc vc).1,
          (processTier opts inF rest rc vc).2) := by
  simp only [processTier, h1]
  simp

theorem processTier_capped (opts : RenderOptions) (inF : ChunkBounds → Bool)
    (c : PointCloudChunk) (rest : List PointCloudChunk) (rc vc : Nat)
    (h1 : ¬ (opts.enableFrustumCulling && !(inF c.bounds)) = true)
    (h2 : opts.maxPointCount < rc + c.count) :
    processTier opts inF (c :: rest) rc vc
      = ({ c with visible := false } :: (processTier opts inF rest rc vc).1,
          (processTier opts inF rest rc vc).2) := by
  simp only [processTier]
  rw [if_neg (by simpa using h1), if_pos h2]

theorem processTier_budget_hit (opts : RenderOptions) (inF : ChunkBounds → Bool)
    (c : PointCloudChunk) (rest : List PointCloudChunk) (rc vc : Nat)
    (h1 : ¬ (opts.enableFrustumCulling && !(inF c.bounds)) = true)
    (h2 : ¬ opts.maxPointCount < rc + c.count)
    (h3 : opts.pointBudget ≤ rc + c.count) :
    processTier opts inF (c :: rest) rc vc
      = ({ c with visible := true } :: rest, rc + c.count, vc + 1, true) := by
  simp only [processTier]
  rw [if_neg (by simpa using h1), if_neg h2, if_pos h3]

theorem processTier_shown (opts : RenderOptions) (inF : ChunkBounds → Bool)
    (c : PointCloudChunk) (rest : List PointCloudChunk) (rc vc : Nat)
    (h1 : ¬ (opts.enableFrustumCulling && !(inF c.bounds)) = true)
    (h2 : ¬ opts.maxPointCount < rc + c.count)
    (h3 : ¬ opts.pointBudget ≤ rc + c.count) :
    processTier opts inF (c :: rest) rc vc
      = ({ c with visible := true } :: (processTier opts inF rest (rc + c.count) (vc + 1)).1,
          (processTier opts inF rest (rc + c.count) (vc + 1)).2) := by
  simp only [processTier]
  rw [if_neg (by simpa using h1), if_neg h2, if_neg h3]

theorem processTiers_nil (opts : RenderOptions) (inF : ChunkBounds → Bool) (rc vc : Nat) :
    processTiers opts inF [] rc vc = ([], rc, vc) := rfl

theorem processTiers_reached (opts : RenderOptions) (inF : ChunkBounds → Bool)
    (lod : Nat) (cs : List PointCloudChunk) (rest : List (Nat × List PointCloudChunk))
    (rc vc : Nat) (h : (processTier opts inF cs rc vc).2.2.2 = true) :
    processTiers opts inF ((lod, cs) :: rest) rc vc
      = ((lod, (processTier opts inF cs rc vc).1) :: hideAll rest,
          (processTier opts inF cs rc vc).2.1,
          (processTier opts inF cs rc vc).2.2.1) := by
  simp only [processTiers, h]
  simp

theorem processTiers_postbreak (opts : RenderOptions) (inF : ChunkBounds → Bool)
    (lod : Nat) (cs : List PointCloudChunk) (rest : List (Nat × List PointCloudChunk))
    (rc vc : Nat) (h : ¬ (processTier opts inF cs rc vc).2.2.2 = true)
    (hb : opts.pointBudget ≤ (processTier opts inF cs rc vc).2.1) :
    processTiers opts inF ((lod, cs) :: rest) rc vc
      = ((lod, (processTier opts inF cs rc vc).1) :: rest,
          (processTier opts inF cs rc vc).2.1,
          (processTier opts inF cs rc vc).2.2.1) := by
  simp only [processTiers]
  rw [if_neg h, if_pos hb]

theorem processTiers_continue (opts : RenderOptions) (inF : ChunkBounds → Bool)
    (lod : Nat) (cs : List PointCloudChunk) (rest : List (Nat × List PointCloudChunk))
    (rc vc : Nat) (h : ¬ (processTier opts inF cs rc vc).2.2.2 = true)
    (hb : ¬ opts.pointBudget ≤ (processTier opts inF cs rc vc).2.1) :
    processTiers opts inF ((lod, cs) :: rest) rc vc
      = ((lod, (processTier opts inF cs rc vc).1)
            :: (processTiers opts inF rest (processTier opts inF cs rc vc).2.1
                (processTier opts inF cs rc vc).2.2.1).1,
          (processTiers opts inF rest (processTier opts inF cs rc vc).2.1
            (processTier opts inF cs rc vc).2.2.1).2) := by
  simp only [processTiers]
  rw [if_neg h, if_neg hb]

theorem processTier_cap (opts : RenderOptions) (inF : ChunkBounds → Bool)
    (cs : List PointCloudChunk) :
    ∀ (rc vc : Nat), rc ≤ opts.maxPointCount →
      (processTier opts inF cs rc vc).2.1 ≤ opts.maxPointCount := by
  induction cs with
  | nil => intro rc vc h; simpa [processTier_nil] using h
  | cons c rest ih =>
    intro rc vc h
    by_cases h1 : (opts.enableFrustumCulling && !(inF c.bounds)) = true
    · rw [processTier_culled opts inF c rest rc vc h1]
      exact ih rc vc h
    · by_cases h2 : opts.maxPointCount < rc + c.count
      · rw [processTier_capped opts inF c rest rc vc h1 h2]
        exact ih rc vc h
      · by_cases h3 : opts.pointBudget ≤ rc + c.count
        · rw [processTier_budget_hit opts inF c rest rc vc h1 h2 h3]
          simp
          omega
        · rw [processTier_shown opts inF c rest rc vc h1 h2 h3]
          exact ih (rc + c.count) (vc + 1) (by omega)

theorem processTier_vp (opts : RenderOptions) (inF : ChunkBounds → Bool)
    (cs : List PointCloudChunk) :
    ∀ (rc vc : Nat), (∀ c ∈ cs, c.visible = false) →
      (processTier opts inF cs rc vc).2.1
        = rc + visiblePoints (processTier opts inF cs rc vc).1 := by
  induction cs with
  | nil => intro rc vc _; simp [processTier_nil, visiblePoints]
  | cons c rest ih =>
    intro rc vc hall
    have hrest : ∀ x ∈ rest, x.visible = false :=
      fun x hx => hall x (List.mem_cons_of_mem c hx)
    by_cases h1 : (opts.enableFrustumCulling && !(inF c.bounds)) = true
    · rw [processTier_culled opts inF c rest rc vc h1]
      simpa [visiblePoints_cons] using ih rc vc hrest
    · by_cases h2 : opts.maxPointCount < rc + c.count
      · rw [processTier_capped opts inF c rest rc vc h1 h2]
        simpa [visiblePoints_cons] using ih rc vc hrest
      · by_cases h3 : opts.pointBudget ≤ rc + c.count
        · rw [processTier_budget_hit opts inF c rest rc vc h1 h2 h3]
          simp [visiblePoints_cons, visiblePoints_all_hidden rest hrest]
        · rw [processTier_shown opts inF c rest rc vc h1 h2 h3]
          have := ih (rc + c.count) (vc + 1) hrest
          simp [visiblePoints_cons, this]
          omega

theorem processTier_reached_budget (opts : RenderOptions) (inF : ChunkBounds → Bool)
    (cs : List PointCloudChunk) :
    ∀ (rc vc : Nat), (processTier opts inF cs rc vc).2.2.2 = true →
      opts.pointBudget ≤ (processTier opts inF cs rc vc).2.1 := by
  induction cs with
  | nil => intro rc vc h; simp [processTier_nil] at h
  | cons c rest ih =>
    intro rc vc h
    by_cases h1 : (opts.enableFrustumCulling && !(inF c.bounds)) = true
    · rw [processTier_culled opts inF c rest rc vc h1] at h ⊢
      exact ih rc vc h
    · by_cases h2 : opts.maxPointCount < rc + c.count
      · rw [processTier_capped opts inF c rest rc vc h1 h2] at h ⊢
        exact ih rc vc h
      · by_cases h3 : opts.pointBudget ≤ rc + c.count
        · rw [processTier_budget_hit opts inF c rest rc vc h1 h2 h3]
          simpa using h3
        · rw [processTier_shown opts inF c rest rc vc h1 h2 h3] at h ⊢
          exact ih (rc + c.count) (vc + 1) h

theorem processTiers_cap (opts : RenderOptions) (inF : ChunkBounds → Bool)
    (tiers : List (Nat × List PointCloudChunk)) :
    ∀ (rc vc : Nat), rc ≤ opts.maxPointCount →
      (processTiers opts inF tiers rc vc).2.1 ≤ opts.maxPointCount := by
  induction tiers with
  | nil => intro rc vc h; simpa [processTiers_nil] using h
  | cons t rest ih =>
    intro rc vc h
    obtain ⟨lod, cs⟩ := t
    have hcap := processTier_cap opts inF cs rc vc h
    by_cases hr : (processTier opts inF cs rc vc).2.2.2 = true
    · rw [processTiers_reached opts inF lod cs rest rc vc hr]
      exact hcap
    · by_cases hb : opts.pointBudget ≤ (processTier opts inF cs rc vc).2.1
      · rw [processTiers_postbreak opts inF lod cs rest rc vc hr hb]
        exact hcap
      · rw [processTiers_continue opts inF lod cs rest rc vc hr hb]
        exact ih _ _ hcap

theorem visiblePointsTiers_cons (lod : Nat) (cs : List PointCloudChunk)
    (rest : List (Nat × List PointCloudChunk)) :
    visiblePointsTiers ((lod, cs) :: rest) = visiblePoints cs + visiblePointsTiers rest := by
  simp [visiblePointsTiers]

theorem visiblePointsTiers_all_hidden (tiers : List (Nat × List PointCloudChunk))
    (h : ∀ t ∈ tiers, ∀ c ∈ t.2, c.visible = false) : visiblePointsTiers tiers = 0 := by
  induction tiers with
  | nil => rfl
  | cons t rest ih =>
    obtain ⟨lod, cs⟩ := t
    rw [visiblePointsTiers_cons]
    rw [visiblePoints_all_hidden cs (h (lod, cs) (by simp)),
      ih (fun x hx => h x (List.mem_cons_of_mem _ hx))]

theorem processTiers_vp (opts : RenderOptions) (inF : ChunkBounds → Bool)
    (tiers : List (Nat × List PointCloudChunk)) :
    ∀ (rc vc : Nat), (∀ t ∈ tiers, ∀ c ∈ t.2, c.visible = false) →
      (processTiers opts inF tiers rc vc).2.1
        = rc + visiblePointsTiers (processTiers opts inF tiers rc vc).1 := by
  induction tiers with
  | nil => intro rc vc _; simp [processTiers_nil, visiblePointsTiers]
  | cons t rest ih =>
    intro rc vc hall
    obtain ⟨lod, cs⟩ := t
    have hcs : ∀ c ∈ cs, c.visible = false := hall (lod, cs) (by simp)
    have hrest : ∀ t ∈ rest, ∀ c ∈ t.2, c.visible = false :=
      fun t ht => hall t (List.mem_cons_of_mem _ ht)
    have hvp := processTier_vp opts inF cs rc vc hcs
    by_cases hr : (processTier opts inF cs rc vc).2.2.2 = true
    · rw [processTiers_reached opts inF lod cs rest rc vc hr,
        visiblePointsTiers_cons lod (processTier opts inF cs rc vc).1 (hideAll rest),
        visiblePointsTiers_hideAll]
      simpa using hvp
    · by_cases hb : opts.pointBudget ≤ (processTier opts inF cs rc vc).2.1
      · rw [processTiers_postbreak opts inF lod cs rest rc vc hr hb,
          visiblePointsTiers_cons lod (processTier opts inF cs rc vc).1 rest,
          visiblePointsTiers_all_hidden rest hrest]
        simpa using hvp
      · rw [processTiers_continue opts inF lod cs rest rc vc hr hb,
          visiblePointsTiers_cons lod (processTier opts inF cs rc vc).1]
        have hih := ih (processTier opts inF cs rc vc).2.1
          (processTier opts inF cs rc vc).2.2.1 hrest
        rw [hih]
        omega

theorem processTier_core (opts : RenderOptions) (inF : ChunkBounds → Bool)
    (cs : List PointCloudChunk) :
    ∀ (rc vc : Nat),
      (processTier opts inF cs rc vc).1.map PointCloudChunk.core
        = cs.map PointCloudChunk.core := by
  induction cs with
  | nil => intro rc vc; simp [processTier_nil]
  | cons c rest ih =>
    intro rc vc
    by_cases h1 : (opts.enableFrustumCulling && !(inF c.bounds)) = true
    · rw [processTier_culled opts inF c rest rc vc h1]
      simp [PointCloudChunk.core, ih rc vc]
    · by_cases h2 : opts.maxPointCount < rc + c.count
      · rw [processTier_capped opts inF c rest rc vc h1 h2]
        simp [PointCloudChunk.core, ih rc vc]
      · by_cases h3 : opts.pointBudget ≤ rc + c.count
        · rw [processTier_budget_hit opts inF c rest rc vc h1 h2 h3]
          simp [PointCloudChunk.core]
        · rw [processTier_shown opts inF c rest rc vc h1 h2 h3]
          simp [PointCloudChunk.core, ih (rc + c.count) (vc + 1)]

theorem hideAll_core (tiers : List (Nat × List PointCloudChunk)) :
    (hideAll tiers).map (fun t => (t.1, t.2.map PointCloudChunk.core))
      = tiers.map (fun t => (t.1, t.2.map PointCloudChunk.core)) := by
  induction tiers with
  | nil => rfl
  | cons t rest ih =>
    simp_all [hideAll, PointCloudChunk.core]

theorem processTiers_core (opts : RenderOptions) (inF : ChunkBounds → Bool)
    (tiers : List (Nat × List PointCloudChunk)) :
    ∀ (rc vc : Nat),
      (processTiers opts inF tiers rc vc).1.map
          (fun t => (t.1, t.2.map PointCloudChunk.core))
        = tiers.map (fun t => (t.1, t.2.map PointCloudChunk.core)) := by
  induction tiers with
  | nil => intro rc vc; simp [processTiers_nil]
  | cons t rest ih =>
    intro rc vc
    obtain ⟨lod, cs⟩ := t
    by_cases hr : (processTier opts inF cs rc vc).2.2.2 = true
    · rw [processTiers_reached opts inF lod cs rest rc vc hr]
      simp only [List.map_cons, hideAll_core, processTier_core]
    · by_cases hb : opts.pointBudget ≤ (processTier opts inF cs rc vc).2.1
      · rw [processTiers_postbreak opts inF lod cs rest rc vc hr hb]
        simp only [List.map_cons, processTier_core]
      · rw [processTiers_continue opts inF lod cs rest rc vc hr hb]
        simp only [List.map_cons, processTier_core, ih]

/-! ## Claim theorems for the scheduler -/

/-- C1 counterexample.  Working set: one tier (level 0) with chunk `a`
(600 points, hidden) and chunk `b` (600 points, still visible from a
previous frame — a freshly added `THREE.Points` is visible by default).
Options: hard cap 1000, budget 500, frustum culling on, everything in
view.  The update shows `a` (600 ≤ 1000), reaches the budget
(600 ≥ 500) and breaks out of the tier without ever visiting `b`, so `b`
stays visible and the visible point total 1200 exceeds the hard cap
1000: the claimed invariant `sum(visible chunk point counts) ≤
maxPointCount` is false after the update. -/
theorem scheduler_hard_cap_counterexample :
    ¬ (visiblePointsTiers
        (updateVisibilityAndLOD ⟨1000, 500, true⟩ (fun _ => true)
          [(0, [⟨"a", [], [], 600, ⟨(0,0,0), (0,0,0), (0,0,0)⟩, 0, false⟩,
                ⟨"b", [], [], 600, ⟨(0,0,0), (0,0,0), (0,0,0)⟩, 0, true⟩])]).1
      ≤ 1000) := by
  decide

/-- C1 (amended).  The running total `renderedPoints` committed by a
single visibility update never exceeds `maxPointCount`; a chunk whose
addition would exceed the cap is marked hidden and charges nothing
against the running total; and when every chunk is hidden before the
update (so no stale visibility from earlier frames survives the early
budget break), the sum of the point counts of the chunks visible after
the update equals `renderedPoints` and hence is at most
`maxPointCount`. -/
theorem scheduler_hard_cap :
    (∀ (opts : RenderOptions) (inFrustum : ChunkBounds → Bool)
        (tiers : List (Nat × List PointCloudChunk)),
        (updateVisibilityAndLOD opts inFrustum tiers).2.1 ≤ opts.maxPointCount)
    ∧ (∀ (opts : RenderOptions) (inFrustum : ChunkBounds → Bool)
        (c : PointCloudChunk) (rest : List PointCloudChunk) (rc vc : Nat),
        ¬ (opts.enableFrustumCulling && !(inFrustum c.bounds)) = true →
        opts.maxPointCount < rc + c.count →
        processTier opts inFrustum (c :: rest) rc vc
          = ({ c with visible := false } :: (processTier opts inFrustum rest rc vc).1,
              (processTier opts inFrustum rest rc vc).2))
    ∧ (∀ (opts : RenderOptions) (inFrustum : ChunkBounds → Bool)
        (tiers : List (Nat × List PointCloudChunk)),
        (∀ t ∈ tiers, ∀ c ∈ t.2, c.visible = false) →
        (updateVisibilityAndLOD opts inFrustum tiers).2.1
            = visiblePointsTiers (updateVisibilityAndLOD opts inFrustum tiers).1
        ∧ visiblePointsTiers (updateVisibilityAndLOD opts inFrustum tiers).1
            ≤ opts.maxPointCount) := by
  refine ⟨?_, ?_, ?_⟩
  · intro opts inF tiers
    exact processTiers_cap opts inF (sortTiers tiers) 0 0 (by omega)
  · intro opts inF c rest rc vc h1 h2
    exact processTier_capped opts inF c rest rc vc h1 h2
  · intro opts inF tiers hall
    have hall2 : ∀ t ∈ sortTiers tiers, ∀ c ∈ t.2, c.visible = false :=
      fun t ht => hall t ((sortTiers_perm tiers).mem_iff.mp ht)
    have hvp := processTiers_vp opts inF (sortTiers tiers) 0 0 hall2
    have hcap := processTiers_cap opts inF (sortTiers tiers) 0 0 (by omega)
    constructor
    · simpa [updateVisibilityAndLOD] using hvp
    · have : (updateVisibilityAndLOD opts inF tiers).2.1
          = visiblePointsTiers (updateVisibilityAndLOD opts inF tiers).1 := by
        simpa [updateVisibilityAndLOD] using hvp
      rw [← this]
      simpa [updateVisibilityAndLOD] using hcap

/-- C1 witness: on the counterexample working set with both chunks
initially hidden, the update commits 600 points, the visible sum equals
the committed total, and it is within the hard cap 1000. -/
theorem scheduler_hard_cap_witness :
    (updateVisibilityAndLOD ⟨1000, 500, true⟩ (fun _ => true)
        [(0, [⟨"a", [], [], 600, ⟨(0,0,0), (0,0,0), (0,0,0)⟩, 0, false⟩,
              ⟨"b", [], [], 600, ⟨(0,0,0), (0,0,0), (0,0,0)⟩, 0, false⟩])]).2.1 ≤ 1000
    ∧ (updateVisibilityAndLOD ⟨1000, 500, true⟩ (fun _ => true)
        [(0, [⟨"a", [], [], 600, ⟨(0,0,0), (0,0,0), (0,0,0)⟩, 0, false⟩,
              ⟨"b", [], [], 600, ⟨(0,0,0), (0,0,0), (0,0,0)⟩, 0, false⟩])]).2.1
        = visiblePointsTiers (updateVisibilityAndLOD ⟨1000, 500, true⟩ (fun _ => true)
            [(0, [⟨"a", [], [], 600, ⟨(0,0,0), (0,0,0), (0,0,0)⟩, 0, false⟩,
                  ⟨"b", [], [], 600, ⟨(0,0,0), (0,0,0), (0,0,0)⟩, 0, false⟩])]).1 := by
  constructor
  · exact scheduler_hard_cap.1 ⟨1000, 500, true⟩ (fun _ => true) _
  · exact (scheduler_hard_cap.2.2 ⟨1000, 500, true⟩ (fun _ => true)
      [(0, [⟨"a", [], [], 600, ⟨(0,0,0), (0,0,0), (0,0,0)⟩, 0, false⟩,
            ⟨"b", [], [], 600, ⟨(0,0,0), (0,0,0), (0,0,0)⟩, 0, false⟩])] (by decide)).1

/-- C2 counterexample.  Working set: coarse tier (level 1, chunk
`coarse`, 10 points, visible) listed first, fine tier (level 0, chunk
`fine`, 10 points, hidden); budget 10, cap 100, everything in view.  The
update visits level 0 first (keys sorted ascending, i.e. finest first,
not coarsest first), shows `fine`, reaches the budget, and hides the
coarser tier: after the update the finer-tier chunk is visible and the
coarser-tier chunk is hidden — the opposite of the claimed
coarse-to-fine traversal and finer-tier suppression. -/
theorem scheduler_tier_order_counterexample :
    updateVisibilityAndLOD ⟨100, 10, true⟩ (fun _ => true)
        [(1, [⟨"coarse", [], [], 10, ⟨(0,0,0), (0,0,0), (0,0,0)⟩, 1, true⟩]),
         (0, [⟨"fine", [], [], 10, ⟨(0,0,0), (0,0,0), (0,0,0)⟩, 0, false⟩])]
      = ([(0, [⟨"fine", [], [], 10, ⟨(0,0,0), (0,0,0), (0,0,0)⟩, 0, true⟩]),
          (1, [⟨"coarse", [], [], 10, ⟨(0,0,0), (0,0,0), (0,0,0)⟩, 1, false⟩])], 10, 1) := by
  decide

/-- C2 (amended).  Tiers are visited from finest (level 0) to coarsest
(largest level number); from the moment the running total reaches the
configured point budget inside a tier, every chunk belonging to a
coarser (higher-numbered, later in the sorted traversal) tier is hidden
for the frame, those tiers are not visited, and traversal stops. -/
theorem scheduler_budget_tier_suppression :
    ∀ (opts : RenderOptions) (inFrustum : ChunkBounds → Bool) (lod : Nat)
      (cs : List PointCloudChunk) (rest : List (Nat × List PointCloudChunk)) (rc vc : Nat),
      (processTier opts inFrustum cs rc vc).2.2.2 = true →
      processTiers opts inFrustum ((lod, cs) :: rest) rc vc
          = ((lod, (processTier opts inFrustum cs rc vc).1) :: hideAll rest,
              (processTier opts inFrustum cs rc vc).2.1,
              (processTier opts inFrustum cs rc vc).2.2.1)
      ∧ opts.pointBudget ≤ (processTier opts inFrustum cs rc vc).2.1
      ∧ visiblePointsTiers (hideAll rest) = 0 := by
  intro opts inF lod cs rest rc vc h
  exact ⟨processTiers_reached opts inF lod cs rest rc vc h,
    processTier_reached_budget opts inF cs rc vc h,
    visiblePointsTiers_hideAll rest⟩

/-- C2 witness: on the counterexample working set, the fine tier reaches
the budget and the coarser tier is hidden wholesale with traversal
stopped. -/
theorem scheduler_budget_tier_suppression_witness :
    processTiers ⟨100, 10, true⟩ (fun _ => true)
        [(0, [⟨"fine", [], [], 10, ⟨(0,0,0), (0,0,0), (0,0,0)⟩, 0, false⟩]),
         (1, [⟨"coarse", [], [], 10, ⟨(0,0,0), (0,0,0), (0,0,0)⟩, 1, true⟩])] 0 0
        = ((0, (processTier ⟨100, 10, true⟩ (fun _ => true)
              [⟨"fine", [], [], 10, ⟨(0,0,0), (0,0,0), (0,0,0)⟩, 0, false⟩] 0 0).1)
            :: hideAll [(1, [⟨"coarse", [], [], 10, ⟨(0,0,0), (0,0,0), (0,0,0)⟩, 1, true⟩])],
            (processTier ⟨100, 10, true⟩ (fun _ => true)
              [⟨"fine", [], [], 10, ⟨(0,0,0), (0,0,0), (0,0,0)⟩, 0, false⟩] 0 0).2.1,
            (processTier ⟨100, 10, true⟩ (fun _ => true)
              [⟨"fine", [], [], 10, ⟨(0,0,0), (0,0,0), (0,0,0)⟩, 0, false⟩] 0 0).2.2.1)
    ∧ (10 : Nat) ≤ (processTier ⟨100, 10, true⟩ (fun _ => true)
        [⟨"fine", [], [], 10, ⟨(0,0,0), (0,0,0), (0,0,0)⟩, 0, false⟩] 0 0).2.1
    ∧ visiblePointsTiers
        (hideAll [(1, [⟨"coarse", [], [], 10, ⟨(0,0,0), (0,0,0), (0,0,0)⟩, 1, true⟩])]) = 0 :=
  scheduler_budget_tier_suppression ⟨100, 10, true⟩ (fun _ => true) 0
    [⟨"fine", [], [], 10, ⟨(0,0,0), (0,0,0), (0,0,0)⟩, 0, false⟩]
    [(1, [⟨"coarse", [], [], 10, ⟨(0,0,0), (0,0,0), (0,0,0)⟩, 1, true⟩])] 0 0 (by decide)

/-- C10.  A single visibility update mutates only the chunks' visibility
flags and the `renderedPoints` / `visibleChunks` statistics: the
multiset of tiers, with each chunk projected to its non-visibility
fields (id, points buffer, colors buffer, count, bounds, LOD level), is
unchanged — no chunk is added, removed, or modified otherwise. -/
theorem scheduler_frame_effect :
    ∀ (opts : RenderOptions) (inFrustum : ChunkBounds → Bool)
      (tiers : List (Nat × List PointCloudChunk)),
      ((updateVisibilityAndLOD opts inFrustum tiers).1.map
          (fun t => (t.1, t.2.map PointCloudChunk.core))).Perm
        (tiers.map (fun t => (t.1, t.2.map PointCloudChunk.core))) := by
  intro opts inF tiers
  unfold updateVisibilityAndLOD
  rw [processTiers_core opts inF (sortTiers tiers) 0 0]
  exact (sortTiers_perm tiers).map _

/-! ## Voxel downsample lemmas -/

theorem voxelUpdate_length (key : Int × Int × Int) (p : Point3D) (c : Option Color)
    (m : List ((Int × Int × Int) × VoxelAcc)) :
    (voxelUpdate key p c m).length ≤ m.length + 1 := by
  induction m with
  | nil => simp [voxelUpdate]
  | cons e rest ih =>
    obtain ⟨k, acc⟩ := e
    simp only [voxelUpdate]
    split
    · simp
    · simp
      omega

theorem voxelGroupsAux_length (v : ℚ) (hc : Bool) (cs : List Color) (ps : List Point3D) :
    ∀ (i : Nat) (m : List ((Int × Int × Int) × VoxelAcc)),
      (voxelGroupsAux v hc cs ps i m).length ≤ m.length + ps.length := by
  induction ps with
  | nil => intro i m; simp [voxelGroupsAux]
  | cons p rest ih =>
    intro i m
    simp only [voxelGroupsAux]
    calc (voxelGroupsAux v hc cs rest (i + 1)
            (voxelUpdate (voxelKey v p) p (if hc then cs.get? i else none) m)).length
        ≤ (voxelUpdate (voxelKey v p) p (if hc then cs.get? i else none) m).length
            + rest.length := ih (i + 1) _
      _ ≤ m.length + 1 + rest.length := by
          have := voxelUpdate_length (voxelKey v p) p (if hc then cs.get? i else none) m
          omega
      _ = m.length + (p :: rest).length := by simp; omega

theorem floor_cell_bounds (v x : ℚ) (hv : 0 < v) :
    ((⌊x / v⌋ : ℚ)) * v ≤ x ∧ x < ((⌊x / v⌋ : ℚ) + 1) * v := by
  constructor
  · have h := Int.floor_le (x / v)
    calc ((⌊x / v⌋ : ℚ)) * v ≤ (x / v) * v := by
          exact mul_le_mul_of_nonneg_right h (le_of_lt hv)
      _ = x := by field_simp
  · have h := Int.lt_floor_add_one (x / v)
    calc x = (x / v) * v := by field_simp
      _ < ((⌊x / v⌋ : ℚ) + 1) * v := by
          exact mul_lt_mul_of_pos_right h hv

/-- The cell-sum invariant of one `voxelMap` entry: the count is
positive and each coordinate sum lies in the cell interval scaled by the
count. -/
def voxelInv (v : ℚ) (e : (Int × Int × Int) × VoxelAcc) : Prop :=
  1 ≤ e.2.count
  ∧ (e.1.1 : ℚ) * v * e.2.count ≤ e.2.point.x
  ∧ e.2.point.x < ((e.1.1 : ℚ) + 1) * v * e.2.count
  ∧ (e.1.2.1 : ℚ) * v * e.2.count ≤ e.2.point.y
  ∧ e.2.point.y < ((e.1.2.1 : ℚ) + 1) * v * e.2.count
  ∧ (e.1.2.2 : ℚ) * v * e.2.count ≤ e.2.point.z
  ∧ e.2.point.z < ((e.1.2.2 : ℚ) + 1) * v * e.2.count

theorem voxelUpdate_inv (v : ℚ) (hv : 0 < v) (p : Point3D) (c : Option Color)
    (m : List ((Int × Int × Int) × VoxelAcc)) (hm : ∀ e ∈ m, voxelInv v e) :
    ∀ e ∈ voxelUpdate (voxelKey v p) p c m, voxelInv v e := by
  induction m with
  | nil =>
    intro e he
    simp [voxelUpdate] at he
    subst he
    have hx := floor_cell_bounds v p.x hv
    have hy := floor_cell_bounds v p.y hv
    have hz := floor_cell_bounds v p.z hv
    simp only [voxelInv, voxelKey]
    refine ⟨le_refl 1, ?_, ?_, ?_, ?_, ?_, ?_⟩ <;> push_cast <;> simp only [mul_one] <;>
      linarith [hx.1, hx.2, hy.1, hy.2, hz.1, hz.2]
  | cons e0 rest ih =>
    intro e he
    obtain ⟨k, acc⟩ := e0
    simp only [voxelUpdate] at he
    split at he
    · rename_i hk
      rcases List.mem_cons.mp he with he1 | he2
      · subst he1
        have hinv := hm (k, acc) (by simp)
        have hx := floor_cell_bounds v p.x hv
        have hy := floor_cell_bounds v p.y hv
        have hz := floor_cell_bounds v p.z hv
        rw [hk] at hinv
        simp only [voxelInv, voxelKey] at hinv ⊢
        obtain ⟨hc1, hc2, hc3, hc4, hc5, hc6, hc7⟩ := hinv
        rw [hk]
        simp only [voxelKey]
        push_cast
        refine ⟨by simp, ?_, ?_, ?_, ?_, ?_, ?_⟩ <;> push_cast <;>
          push_cast at hc2 hc3 hc4 hc5 hc6 hc7 <;>
          linarith [hx.1, hx.2, hy.1, hy.2, hz.1, hz.2, hc2, hc3, hc4, hc5, hc6, hc7]
      · exact hm _ (List.mem_cons_of_mem _ he2)
    · rcases List.mem_cons.mp he with he1 | he2
      · subst he1
        exact hm _ (by simp)
      · exact ih (fun x hx => hm x (List.mem_cons_of_mem _ hx)) _ he2

theorem voxelGroupsAux_inv (v : ℚ) (hv : 0 < v) (hc : Bool) (cs : List Color)
    (ps : List Point3D) :
    ∀ (i : Nat) (m : List ((Int × Int × Int) × VoxelAcc)),
      (∀ e ∈ m, voxelInv v e) →
      ∀ e ∈ voxelGroupsAux v hc cs ps i m, voxelInv v e := by
  induction ps with
  | nil => intro i m hm e he; exact hm e he
  | cons p rest ih =>
    intro i m hm e he
    exact ih (i + 1) _ (voxelUpdate_inv v hv p _ m hm) e he

/-- C8.  For every input and positive voxel size, `voxelDownsample`
returns at most as many points as it was given — one averaged point per
occupied voxel cell, a point's cell being
`(⌊x/voxelSize⌋, ⌊y/voxelSize⌋, ⌊z/voxelSize⌋)` — and each occupied
cell's averaged position lies within that cell's bounds
`[cell·voxelSize, (cell+1)·voxelSize)` on every axis (the returned
points are exactly the per-cell averages, third conjunct). -/
theorem voxel_downsample_cells :
    ∀ (points : List Point3D) (colors : Option (List Color)) (v : ℚ), 0 < v →
      (voxelDownsample points colors v).1.length ≤ points.length
      ∧ (voxelDownsample points colors v).1
          = (voxelGroups v points (colors.getD [])).map (fun g =>
              (⟨g.2.point.x / g.2.count, g.2.point.y / g.2.count,
                g.2.point.z / g.2.count⟩ : Point3D))
      ∧ ∀ g ∈ voxelGroups v points (colors.getD []),
          1 ≤ g.2.count
          ∧ (g.1.1 : ℚ) * v ≤ g.2.point.x / g.2.count
          ∧ g.2.point.x / g.2.count < ((g.1.1 : ℚ) + 1) * v
          ∧ (g.1.2.1 : ℚ) * v ≤ g.2.point.y / g.2.count
          ∧ g.2.point.y / g.2.count < ((g.1.2.1 : ℚ) + 1) * v
          ∧ (g.1.2.2 : ℚ) * v ≤ g.2.point.z / g.2.count
          ∧ g.2.point.z / g.2.count < ((g.1.2.2 : ℚ) + 1) * v := by
  intro points colors v hv
  have hlen : (voxelGroups v points (colors.getD [])).length ≤ points.length := by
    simpa [voxelGroups] using
      voxelGroupsAux_length v ((colors.getD []).length > 0) (colors.getD []) points 0 []
  have hinv : ∀ g ∈ voxelGroups v points (colors.getD []), voxelInv v g := by
    intro g hg
    exact voxelGroupsAux_inv v hv _ _ points 0 [] (by simp) g hg
  refine ⟨?_, ?_, ?_⟩
  · cases points with
    | nil => simp [voxelDownsample]
    | cons p ps =>
      simp only [voxelDownsample, List.isEmpty_cons, Bool.false_eq_true, if_false]
      simpa using hlen
  · cases points with
    | nil => simp [voxelDownsample, voxelGroups, voxelGroupsAux]
    | cons p ps => simp [voxelDownsample]
  · intro g hg
    have h := hinv g hg
    obtain ⟨h1, h2, h3, h4, h5, h6, h7⟩ := h
    have hcpos : (0 : ℚ) < (g.2.count : ℚ) := by
      have : (1 : ℚ) ≤ (g.2.count : ℚ) := by exact_mod_cast h1
      linarith
    refine ⟨h1, ?_, ?_, ?_, ?_, ?_, ?_⟩
    · rw [le_div_iff₀ hcpos]; linarith
    · rw [div_lt_iff₀ hcpos]; linarith
    · rw [le_div_iff₀ hcpos]; linarith
    · rw [div_lt_iff₀ hcpos]; linarith
    · rw [le_div_iff₀ hcpos]; linarith
    · rw [div_lt_iff₀ hcpos]; linarith

/-- C8 witness: three points, voxel size 1 — two cells, output 2 ≤ 3
points. -/
theorem voxel_downsample_cells_witness :
    (voxelDownsample [⟨1/2, 0, 0⟩, ⟨3/4, 0, 0⟩, ⟨3, 0, 0⟩] none 1).1.length ≤ 3 :=
  (voxel_downsample_cells [⟨1/2, 0, 0⟩, ⟨3/4, 0, 0⟩, ⟨3, 0, 0⟩] none 1 (by norm_num)).1

/-! ## Octree lemmas -/

theorem pairColors_fst (ps : List Point3D) (cs : List Color) :
    (pairColors ps cs).map (fun pc => pc.1) = ps := by
  induction ps generalizing cs with
  | nil => cases cs <;> simp [pairColors]
  | cons p rest ih => cases cs <;> simp [pairColors, ih]

theorem octantIndex_lt (c p : Point3D) : octantIndex c p < 8 := by
  simp only [octantIndex]
  split <;> split <;> split <;> omega

theorem filter_map_congr_of_not_mem {α : Type} (a : α) (fa : Nat) (g : Nat → List α)
    (idxs : List Nat) (h : fa ∉ idxs) :
    idxs.map (fun i => if fa = i then a :: g i else g i) = idxs.map g := by
  apply List.map_congr_left
  intro i hi
  rw [if_neg (fun he => h (by rwa [he]))]

theorem flatten_insert_one {α : Type} (a : α) (fa : Nat) (g : Nat → List α) :
    ∀ (idxs : List Nat), fa ∈ idxs → idxs.Nodup →
      ((idxs.map (fun i => if fa = i then a :: g i else g i)).flatten).Perm
        (a :: (idxs.map g).flatten) := by
  intro idxs
  induction idxs with
  | nil => intro h; simp at h
  | cons j rest ih =>
    intro hmem hnodup
    by_cases hj : fa = j
    · subst hj
      have hnot : fa ∉ rest := by
        simp [List.nodup_cons] at hnodup
        exact hnodup.1
      rw [List.map_cons, if_pos rfl, List.flatten_cons,
        filter_map_congr_of_not_mem a fa g rest hnot, List.map_cons, List.flatten_cons]
      exact List.Perm.refl _
    · have hmem2 : fa ∈ rest := by
        rcases List.mem_cons.mp hmem with h1 | h2
        · exact absurd h1 hj
        · exact h2
      have hnodup2 : rest.Nodup := (List.nodup_cons.mp hnodup).2
      rw [List.map_cons, if_neg hj, List.flatten_cons, List.map_cons, List.flatten_cons]
      exact ((ih hmem2 hnodup2).append_left (g j)).trans List.perm_middle

theorem octant_partition_perm (c : Point3D) (pcs : List (Point3D × Option Color)) :
    (((List.range 8).map (fun i => pcs.filter (fun pc => octantIndex c pc.1 = i))).flatten).Perm
      pcs := by
  induction pcs with
  | nil => simp
  | cons a rest ih =>
    have hsplit : (List.range 8).map
        (fun i => (a :: rest).filter (fun pc => octantIndex c pc.1 = i))
        = (List.range 8).map (fun i =>
            if octantIndex c a.1 = i
            then a :: rest.filter (fun pc => octantIndex c pc.1 = i)
            else rest.filter (fun pc => octantIndex c pc.1 = i)) := by
      apply List.map_congr_left
      intro i _
      by_cases hia : octantIndex c a.1 = i
      · rw [if_pos hia, List.filter_cons_of_pos (by simpa using hia)]
      · rw [if_neg hia, List.filter_cons_of_neg (by simpa using hia)]
    rw [hsplit]
    have hins := flatten_insert_one a (octantIndex c a.1)
      (fun i => rest.filter (fun pc => octantIndex c pc.1 = i)) (List.range 8)
      (List.mem_range.mpr (octantIndex_lt c a.1)) (List.nodup_range 8)
    exact hins.trans (ih.cons a)

theorem flatten_filterMap_perm {α : Type} (idxs : List Nat) (F : Nat → Option (List α))
    (g : Nat → List α)
    (h : ∀ i ∈ idxs, (F i = none → g i = []) ∧ (∀ l, F i = some l → l.Perm (g i))) :
    ((idxs.filterMap F).flatten).Perm ((idxs.map g).flatten) := by
  induction idxs with
  | nil => simp
  | cons i rest ih =>
    have hi := h i (by simp)
    have hrest := fun j hj => h j (List.mem_cons_of_mem _ hj)
    cases hF : F i with
    | none =>
      rw [List.filterMap_cons_none hF, List.map_cons, List.flatten_cons, hi.1 hF]
      simpa using ih hrest
    | some l =>
      rw [List.filterMap_cons_some hF, List.map_cons, List.flatten_cons, List.flatten_cons]
      exact (hi.2 l hF).append (ih hrest)

theorem sum_filterMap_counts (idxs : List Nat) (F : Nat → Option OctreeNode) (g : Nat → Nat)
    (h : ∀ i ∈ idxs, (F i = none → g i = 0) ∧ (∀ t, F i = some t → t.pointCount = g i)) :
    (((idxs.filterMap F).map OctreeNode.pointCount)).sum = ((idxs.map g)).sum := by
  induction idxs with
  | nil => simp
  | cons i rest ih =>
    have hi := h i (by simp)
    have hrest := fun j hj => h j (List.mem_cons_of_mem _ hj)
    cases hF : F i with
    | none =>
      rw [List.filterMap_cons_none hF, List.map_cons, List.sum_cons, hi.1 hF, ih hrest]
      omega
    | some t =>
      rw [List.filterMap_cons_some hF, List.map_cons, List.map_cons, List.sum_cons,
        List.sum_cons, hi.2 t hF, ih hrest]

theorem leafPoints_leaf (b : OBounds) (lvl pc : Nat) (pts : List Point3D)
    (cols : Option (List Color)) :
    (OctreeNode.leaf b lvl pc pts cols).leafPoints = pts := by
  simp [OctreeNode.leafPoints]

theorem leafPoints_node (b : OBounds) (lvl pc : Nat) (children : List OctreeNode) :
    (OctreeNode.node b lvl pc children).leafPoints
      = (children.map OctreeNode.leafPoints).flatten := by
  rw [OctreeNode.leafPoints]
  congr 1
  exact List.attach_map_val children OctreeNode.leafPoints

theorem leavesOk_leaf (mpn maxDepth : Nat) (minSize : ℚ) (b : OBounds) (lvl pc : Nat)
    (pts : List Point3D) (cols : Option (List Color)) :
    (OctreeNode.leaf b lvl pc pts cols).leavesOk mpn maxDepth minSize
      ↔ (pc ≤ mpn ∨ maxDepth ≤ lvl ∨ b.size < minSize) := by
  rw [OctreeNode.leavesOk]

theorem leavesOk_node (mpn maxDepth : Nat) (minSize : ℚ) (b : OBounds) (lvl pc : Nat)
    (children : List OctreeNode) :
    (OctreeNode.node b lvl pc children).leavesOk mpn maxDepth minSize
      ↔ ∀ c ∈ children, c.leavesOk mpn maxDepth minSize := by
  rw [OctreeNode.leavesOk]
  constructor
  · intro h c hc
    exact h ⟨c, hc⟩ (List.mem_attach _ _)
  · intro h c _
    exact h c.1 c.2

theorem countsOk_leaf (b : OBounds) (lvl pc : Nat) (pts : List Point3D)
    (cols : Option (List Color)) :
    (OctreeNode.leaf b lvl pc pts cols).countsOk ↔ pc = pts.length := by
  rw [OctreeNode.countsOk]

theorem countsOk_node (b : OBounds) (lvl pc : Nat) (children : List OctreeNode) :
    (OctreeNode.node b lvl pc children).countsOk
      ↔ (pc = (children.map OctreeNode.pointCount).sum ∧ ∀ c ∈ children, c.countsOk) := by
  rw [OctreeNode.countsOk]
  constructor
  · intro ⟨h1, h2⟩
    refine ⟨?_, fun c hc => h2 ⟨c, hc⟩ (List.mem_attach _ _)⟩
    rw [h1]
    congr 1
    exact List.attach_map_val children OctreeNode.pointCount
  · intro ⟨h1, h2⟩
    refine ⟨?_, fun c _ => h2 c.1 c.2⟩
    rw [h1]
    congr 1
    exact (List.attach_map_val children OctreeNode.pointCount).symm

theorem pointCount_leaf (b : OBounds) (lvl pc : Nat) (pts : List Point3D)
    (cols : Option (List Color)) :
    (OctreeNode.leaf b lvl pc pts cols).pointCount = pc := rfl

theorem pointCount_node (b : OBounds) (lvl pc : Nat) (children : List OctreeNode) :
    (OctreeNode.node b lvl pc children).pointCount = pc := rfl

theorem pairColors_length (ps : List Point3D) (cs : List Color) :
    (pairColors ps cs).length = ps.length := by
  have := congrArg List.length (pairColors_fst ps cs)
  simpa using this

theorem buildRec_leaf_eq (bounds : OBounds) (points : List Point3D) (colors : List Color)
    (level mpn maxDepth : Nat) (minSize : ℚ)
    (h : points.length ≤ mpn ∨ maxDepth ≤ level ∨ bounds.size < minSize) :
    buildOctreeRecursive bounds points colors level mpn maxDepth minSize
      = .leaf bounds level points.length points
          (if colors.length > 0 then some colors else none) := by
  rw [buildOctreeRecursive, if_pos h]

theorem buildRec_node_eq (bounds : OBounds) (points : List Point3D) (colors : List Color)
    (level mpn maxDepth : Nat) (minSize : ℚ)
    (h : ¬ (points.length ≤ mpn ∨ maxDepth ≤ level ∨ bounds.size < minSize)) :
    buildOctreeRecursive bounds points colors level mpn maxDepth minSize
      = .node bounds level points.length
          ((List.range 8).filterMap (fun i =>
            if ((pairColors points colors).filter
                (fun pc => octantIndex bounds.center pc.1 = i)).isEmpty then none
            else some (buildOctreeRecursive (calculateChildBounds bounds i)
              (((pairColors points colors).filter
                (fun pc => octantIndex bounds.center pc.1 = i)).map (fun pc => pc.1))
              (((pairColors points colors).filter
                (fun pc => octantIndex bounds.center pc.1 = i)).filterMap (fun pc => pc.2))
              (level + 1) mpn maxDepth minSize))) := by
  rw [buildOctreeRecursive, if_neg h]

theorem buildRec_spec (mpn maxDepth : Nat) (minSize : ℚ) :
    ∀ (d level : Nat), maxDepth - level ≤ d →
      ∀ (bounds : OBounds) (points : List Point3D) (colors : List Color),
        ((buildOctreeRecursive bounds points colors level mpn maxDepth minSize).leafPoints).Perm
            points
        ∧ (buildOctreeRecursive bounds points colors level mpn maxDepth
            minSize).leavesOk mpn maxDepth minSize
        ∧ (buildOctreeRecursive bounds points colors level mpn maxDepth minSize).countsOk
        ∧ (buildOctreeRecursive bounds points colors level mpn maxDepth
            minSize).pointCount = points.length := by
  intro d
  induction d with
  | zero =>
    intro level hd bounds points colors
    have hcond : points.length ≤ mpn ∨ maxDepth ≤ level ∨ bounds.size < minSize :=
      Or.inr (Or.inl (by omega))
    rw [buildRec_leaf_eq bounds points colors level mpn maxDepth minSize hcond]
    exact ⟨by rw [leafPoints_leaf], (leavesOk_leaf _ _ _ _ _ _ _ _).mpr hcond,
      (countsOk_leaf _ _ _ _ _).mpr rfl, rfl⟩
  | succ m ih =>
    intro level hd bounds points colors
    by_cases hcond : points.length ≤ mpn ∨ maxDepth ≤ level ∨ bounds.size < minSize
    · rw [buildRec_leaf_eq bounds points colors level mpn maxDepth minSize hcond]
      exact ⟨by rw [leafPoints_leaf], (leavesOk_leaf _ _ _ _ _ _ _ _).mpr hcond,
        (countsOk_leaf _ _ _ _ _).mpr rfl, rfl⟩
    · have hlevel : level < maxDepth := by omega
      have hm : maxDepth - (level + 1) ≤ m := by omega
      rw [buildRec_node_eq bounds points colors level mpn maxDepth minSize hcond]
      have hchild : ∀ i t,
          (if ((pairColors points colors).filter
              (fun pc => octantIndex bounds.center pc.1 = i)).isEmpty then none
            else some (buildOctreeRecursive (calculateChildBounds bounds i)
              (((pairColors points colors).filter
                (fun pc => octantIndex bounds.center pc.1 = i)).map (fun pc => pc.1))
              (((pairColors points colors).filter
                (fun pc => octantIndex bounds.center pc.1 = i)).filterMap (fun pc => pc.2))
              (level + 1) mpn maxDepth minSize)) = some t →
          (t.leafPoints).Perm (((pairColors points colors).filter
              (fun pc => octantIndex bounds.center pc.1 = i)).map (fun pc => pc.1))
          ∧ t.leavesOk mpn maxDepth minSize
          ∧ t.countsOk
          ∧ t.pointCount = ((pairColors points colors).filter
              (fun pc => octantIndex bounds.center pc.1 = i)).length := by
        intro i t ht
        split at ht
        · cases ht
        · cases ht
          have := ih (level + 1) hm (calculateChildBounds bounds i)
            (((pairColors points colors).filter
              (fun pc => octantIndex bounds.center pc.1 = i)).map (fun pc => pc.1))
            (((pairColors points colors).filter
              (fun pc => octantIndex bounds.center pc.1 = i)).filterMap (fun pc => pc.2))
          refine ⟨this.1, this.2.1, this.2.2.1, ?_⟩
          rw [this.2.2.2, List.length_map]
      refine ⟨?_, ?_, ?_, rfl⟩
      · -- leaf points are a permutation of the input
        rw [leafPoints_node, List.map_filterMap]
        refine (flatten_filterMap_perm (List.range 8) _
          (fun i => ((pairColors points colors).filter
            (fun pc => octantIndex bounds.center pc.1 = i)).map (fun pc => pc.1)) ?_).trans ?_
        · intro i _
          constructor
          · intro hnone
            rw [Option.map_eq_none'] at hnone
            split at hnone
            · rename_i hemp
              rw [List.isEmpty_iff] at hemp
              simp [hemp]
            · cases hnone
          · intro l hl
            rw [Option.map_eq_some'] at hl
            obtain ⟨t, ht, rfl⟩ := hl
            exact (hchild i t ht).1
        · have hmapmap : (List.range 8).map (fun i => ((pairColors points colors).filter
              (fun pc => octantIndex bounds.center pc.1 = i)).map (fun pc => pc.1))
              = ((List.range 8).map (fun i => (pairColors points colors).filter
                  (fun pc => octantIndex bounds.center pc.1 = i))).map
                  (List.map (fun pc => pc.1)) := by
            rw [List.map_map]
            rfl
          rw [hmapmap, ← List.map_flatten]
          have := (octant_partition_perm bounds.center (pairColors points colors)).map
            (fun (pc : Point3D × Option Color) => pc.1)
          rw [pairColors_fst points colors] at this
          exact this
      · -- every leaf satisfies the termination disjunction
        rw [leavesOk_node]
        intro t ht
        obtain ⟨i, _, hFi⟩ := List.mem_filterMap.mp ht
        exact (hchild i t hFi).2.1
      · -- point counts sum up
        rw [countsOk_node]
        constructor
        · rw [sum_filterMap_counts (List.range 8) _
            (fun i => ((pairColors points colors).filter
              (fun pc => octantIndex bounds.center pc.1 = i)).length) ?_]
          · have hflat := (octant_partition_perm bounds.center
              (pairColors points colors)).length_eq
            rw [List.length_flatten, List.map_map] at hflat
            rw [← pairColors_length points colors, ← hflat]
            rfl
          · intro i _
            constructor
            · intro hnone
              split at hnone
              · rename_i hemp
                rw [List.isEmpty_iff] at hemp
                simp [hemp]
              · cases hnone
            · intro t ht
              exact (hchild i t ht).2.2.2
        · intro t ht
          obtain ⟨i, _, hFi⟩ := List.mem_filterMap.mp ht
          exact (hchild i t hFi).2.2.1

/-- C7.  For every input point set, colour list, and parameters,
`buildOctree` produces a tree in which every leaf satisfies
`pointCount ≤ maxPointsPerNode ∨ level ≥ maxDepth ∨ size < minNodeSize`;
the multiset of points held by the leaves equals the input point set
(no duplicates or omissions); every internal node's point count equals
the sum of its children's point counts (and every leaf's the length of
its stored list); and the root's point count is the input size. -/
theorem octree_build_invariants :
    ∀ (points : List Point3D) (colors : List Color)
      (maxPointsPerNode maxDepth : Nat) (minNodeSize : ℚ),
      ((buildOctree points colors maxPointsPerNode maxDepth minNodeSize).leafPoints).Perm points
      ∧ (buildOctree points colors maxPointsPerNode maxDepth minNodeSize).leavesOk
          maxPointsPerNode maxDepth minNodeSize
      ∧ (buildOctree points colors maxPointsPerNode maxDepth minNodeSize).countsOk
      ∧ (buildOctree points colors maxPointsPerNode maxDepth
          minNodeSize).pointCount = points.length := by
  intro points colors mpn maxDepth minSize
  exact buildRec_spec mpn maxDepth minSize maxDepth 0 (by omega)
    (calculateBounds points) points colors

/-! ## ASCII parser lemmas -/

theorem optMinOf_omin {o : Option ℚ} {l : List ℚ} (h : OptMinOf o l) (v : ℚ) :
    OptMinOf (omin o v) (l ++ [v]) := by
  cases o with
  | none =>
    have hl : l = [] := h
    subst hl
    simp [omin, OptMinOf]
  | some m =>
    obtain ⟨hm, hle⟩ := h
    simp only [omin, OptMinOf]
    constructor
    · rcases le_total m v with hmv | hvm
      · rw [min_eq_left hmv]
        exact List.mem_append_left _ hm
      · rw [min_eq_right hvm]
        exact List.mem_append_right _ (List.mem_singleton_self v)
    · intro w hw
      rcases List.mem_append.mp hw with hw | hw
      · exact le_trans (min_le_left m v) (hle w hw)
      · rw [List.mem_singleton] at hw
        rw [hw]
        exact min_le_right m v

theorem optMaxOf_omax {o : Option ℚ} {l : List ℚ} (h : OptMaxOf o l) (v : ℚ) :
    OptMaxOf (omax o v) (l ++ [v]) := by
  cases o with
  | none =>
    have hl : l = [] := h
    subst hl
    simp [omax, OptMaxOf]
  | some m =>
    obtain ⟨hm, hle⟩ := h
    simp only [omax, OptMaxOf]
    constructor
    · rcases le_total m v with hmv | hvm
      · rw [max_eq_right hmv]
        exact List.mem_append_right _ (List.mem_singleton_self v)
      · rw [max_eq_left hvm]
        exact List.mem_append_left _ hm
    · intro w hw
      rcases List.mem_append.mp hw with hw | hw
      · exact le_trans (hle w hw) (le_max_left m v)
      · rw [List.mem_singleton] at hw
        rw [hw]
        exact le_max_right m v

theorem optMinOf_getD {o : Option ℚ} {l : List ℚ} (h : OptMinOf o l) (hne : l ≠ []) :
    o.getD 0 ∈ l ∧ ∀ v ∈ l, o.getD 0 ≤ v := by
  cases o with
  | none => exact absurd h hne
  | some m => exact h

theorem optMaxOf_getD {o : Option ℚ} {l : List ℚ} (h : OptMaxOf o l) (hne : l ≠ []) :
    o.getD 0 ∈ l ∧ ∀ v ∈ l, v ≤ o.getD 0 := by
  cases o with
  | none => exact absurd h hne
  | some m => exact h

theorem workerLoop_bounds (final step : Nat) (hc : Bool)
    (lines : List (Option (List ℚ))) :
    ∀ (i : Nat) (acc : WorkerAcc),
      OptMinOf acc.minX (acc.pts.map fun p => p.1) →
      OptMinOf acc.minY (acc.pts.map fun p => p.2.1) →
      OptMinOf acc.minZ (acc.pts.map fun p => p.2.2) →
      OptMaxOf acc.maxX (acc.pts.map fun p => p.1) →
      OptMaxOf acc.maxY (acc.pts.map fun p => p.2.1) →
      OptMaxOf acc.maxZ (acc.pts.map fun p => p.2.2) →
      OptMinOf (workerLoop final step hc lines i acc).minX
          ((workerLoop final step hc lines i acc).pts.map fun p => p.1) ∧
      OptMinOf (workerLoop final step hc lines i acc).minY
          ((workerLoop final step hc lines i acc).pts.map fun p => p.2.1) ∧
      OptMinOf (workerLoop final step hc lines i acc).minZ
          ((workerLoop final step hc lines i acc).pts.map fun p => p.2.2) ∧
      OptMaxOf (workerLoop final step hc lines i acc).maxX
          ((workerLoop final step hc lines i acc).pts.map fun p => p.1) ∧
      OptMaxOf (workerLoop final step hc lines i acc).maxY
          ((workerLoop final step hc lines i acc).pts.map fun p => p.2.1) ∧
      OptMaxOf (workerLoop final step hc lines i acc).maxZ
          ((workerLoop final step hc lines i acc).pts.map fun p => p.2.2) := by
  induction lines with
  | nil =>
    intro i acc h1 h2 h3 h4 h5 h6
    simp only [workerLoop]
    exact ⟨h1, h2, h3, h4, h5, h6⟩
  | cons line rest ih =>
    intro i acc h1 h2 h3 h4 h5 h6
    cases line with
    | none =>
      simp only [workerLoop]
      by_cases hfin : final ≤ acc.pts.length
      · rw [if_pos hfin]
        exact ⟨h1, h2, h3, h4, h5, h6⟩
      · rw [if_neg hfin]
        exact ih (i + 1) acc h1 h2 h3 h4 h5 h6
    | some values =>
      simp only [workerLoop]
      by_cases hfin : final ≤ acc.pts.length
      · rw [if_pos hfin]
        exact ⟨h1, h2, h3, h4, h5, h6⟩
      · rw [if_neg hfin]
        by_cases hstep : i % step ≠ 0
        · rw [if_pos hstep]
          exact ih (i + 1) acc h1 h2 h3 h4 h5 h6
        · rw [if_neg hstep]
          by_cases hlen : values.length < 3
          · rw [if_pos hlen]
            exact ih (i + 1) acc h1 h2 h3 h4 h5 h6
          · rw [if_neg hlen]
            refine ih (i + 1) (workerStep hc acc values) ?_ ?_ ?_ ?_ ?_ ?_ <;>
              simp only [workerStep, List.map_append, List.map_cons, List.map_nil]
            · exact optMinOf_omin h1 _
            · exact optMinOf_omin h2 _
            · exact optMinOf_omin h3 _
            · exact optMaxOf_omax h4 _
            · exact optMaxOf_omax h5 _
            · exact optMaxOf_omax h6 _

theorem workerLoop_count (final : Nat) (hc : Bool)
    (lines : List (Option (List ℚ))) :
    ∀ (i : Nat) (acc : WorkerAcc),
      (∀ l ∈ lines, ∃ v, l = some v ∧ 3 ≤ v.length) →
      acc.pts.length ≤ final →
      (workerLoop final 1 hc lines i acc).pts.length =
        min final (acc.pts.length + lines.length) := by
  induction lines with
  | nil =>
    intro i acc _ hle
    simp only [workerLoop, List.length_nil, Nat.add_zero]
    omega
  | cons line rest ih =>
    intro i acc hwf hle
    obtain ⟨v, hv, hvlen⟩ := hwf line (List.mem_cons_self _ _)
    subst hv
    simp only [workerLoop]
    by_cases hfin : final ≤ acc.pts.length
    · rw [if_pos hfin]
      simp only [List.length_cons]
      omega
    · rw [if_neg hfin]
      have hmod : ¬ i % 1 ≠ 0 := by simp [Nat.mod_one]
      rw [if_neg hmod]
      have hlen3 : ¬ v.length < 3 := by omega
      rw [if_neg hlen3]
      have haccle : (workerStep hc acc v).pts.length ≤ final := by
        simp only [workerStep, List.length_append, List.length_cons, List.length_nil]
        omega
      rw [ih (i + 1) (workerStep hc acc v)
        (fun l hl => hwf l (List.mem_cons_of_mem _ hl)) haccle]
      simp only [workerStep, List.length_append, List.length_cons, List.length_nil]
      omega

theorem parsePCDASCII_default_eq (N : Nat) (hc : Bool)
    (dl : List (Option (List ℚ))) (hN : 0 < N) :
    parsePCDASCII N hc dl none none =
      .ok { points := (workerLoop N 1 hc dl 0 emptyWorkerAcc).pts,
            colors := (workerLoop N 1 hc dl 0 emptyWorkerAcc).cols,
            count := (workerLoop N 1 hc dl 0 emptyWorkerAcc).pts.length,
            bmin := ((workerLoop N 1 hc dl 0 emptyWorkerAcc).minX.getD 0,
              (workerLoop N 1 hc dl 0 emptyWorkerAcc).minY.getD 0,
              (workerLoop N 1 hc dl 0 emptyWorkerAcc).minZ.getD 0),
            bmax := ((workerLoop N 1 hc dl 0 emptyWorkerAcc).maxX.getD 0,
              (workerLoop N 1 hc dl 0 emptyWorkerAcc).maxY.getD 0,
              (workerLoop N 1 hc dl 0 emptyWorkerAcc).maxZ.getD 0),
            bcenter := (((workerLoop N 1 hc dl 0 emptyWorkerAcc).minX.getD 0
                + (workerLoop N 1 hc dl 0 emptyWorkerAcc).maxX.getD 0) / 2,
              ((workerLoop N 1 hc dl 0 emptyWorkerAcc).minY.getD 0
                + (workerLoop N 1 hc dl 0 emptyWorkerAcc).maxY.getD 0) / 2,
              ((workerLoop N 1 hc dl 0 emptyWorkerAcc).minZ.getD 0
                + (workerLoop N 1 hc dl 0 emptyWorkerAcc).maxZ.getD 0) / 2) } := by
  have hne : ¬ N = 0 := by omega
  simp only [parsePCDASCII, hne, if_false, jsOrNat, jsOrRat, min_self, mul_one,
    Int.floor_natCast, Int.toNat_natCast, one_div, inv_one, Int.floor_one,
    Int.toNat_one, max_self]

theorem filterMap_length_of_forall_isSome {α β : Type} (f : α → Option β) :
    ∀ (l : List α), (∀ a ∈ l, (f a).isSome) → (l.filterMap f).length = l.length := by
  intro l
  induction l with
  | nil => intro _; rfl
  | cons a rest ih =>
    intro h
    obtain ⟨b, hb⟩ := Option.isSome_iff_exists.mp (h a (List.mem_cons_self _ _))
    rw [List.filterMap_cons_some hb, List.length_cons, List.length_cons,
      ih (fun a ha => h a (List.mem_cons_of_mem _ ha))]

/-! ## Claim theorems for the ASCII parsers -/

/-- C6.  For every ASCII PCD body whose `N` data lines are all well
formed (numeric tokens, at least three per line), the worker decoder
`parsePCDASCII` with default options returns exactly `N` points with
`count = N`; its bounds are the exact coordinate-wise extrema over all
accepted points (each bound is attained by a point and bounds every
point) with `center = (min + max) / 2`.  `parseASCIIData` likewise
returns exactly one point per data line whenever every line has numeric
`x`, `y` and `z` tokens (it returns no bounds). -/
theorem ascii_decode_count_and_bounds :
    (∀ (N : Nat) (hc : Bool) (dl : List (Option (List ℚ))),
      0 < N → dl.length = N →
      (∀ l ∈ dl, ∃ v, l = some v ∧ 3 ≤ v.length) →
      ∃ out, parsePCDASCII N hc dl none none = .ok out
        ∧ out.count = N ∧ out.points.length = N
        ∧ (∀ p ∈ out.points,
            out.bmin.1 ≤ p.1 ∧ out.bmin.2.1 ≤ p.2.1 ∧ out.bmin.2.2 ≤ p.2.2
              ∧ p.1 ≤ out.bmax.1 ∧ p.2.1 ≤ out.bmax.2.1 ∧ p.2.2 ≤ out.bmax.2.2)
        ∧ (∃ p ∈ out.points, p.1 = out.bmin.1)
        ∧ (∃ p ∈ out.points, p.2.1 = out.bmin.2.1)
        ∧ (∃ p ∈ out.points, p.2.2 = out.bmin.2.2)
        ∧ (∃ p ∈ out.points, p.1 = out.bmax.1)
        ∧ (∃ p ∈ out.points, p.2.1 = out.bmax.2.1)
        ∧ (∃ p ∈ out.points, p.2.2 = out.bmax.2.2)
        ∧ out.bcenter = ((out.bmin.1 + out.bmax.1) / 2,
            (out.bmin.2.1 + out.bmax.2.1) / 2, (out.bmin.2.2 + out.bmax.2.2) / 2))
    ∧ (∀ (fi : FieldIdx) (lines : List (List (Option ℚ))),
      (∀ l ∈ lines, (vget l fi.x).isSome ∧ (vget l fi.y).isSome ∧ (vget l fi.z).isSome) →
      (parseASCIIData fi lines).1.length = lines.length) := by
  constructor
  · intro N hc dl hN hlen hwf
    subst hlen
    rw [parsePCDASCII_default_eq dl.length hc dl hN]
    have hcount : (workerLoop dl.length 1 hc dl 0 emptyWorkerAcc).pts.length = dl.length := by
      have hc0 := workerLoop_count dl.length hc dl 0 emptyWorkerAcc hwf
        (by simp [emptyWorkerAcc])
      simp only [emptyWorkerAcc, List.length_nil, Nat.zero_add, min_self] at hc0
      exact hc0
    obtain ⟨H1, H2, H3, H4, H5, H6⟩ := workerLoop_bounds dl.length 1 hc dl 0 emptyWorkerAcc
      rfl rfl rfl rfl rfl rfl
    have hne : (workerLoop dl.length 1 hc dl 0 emptyWorkerAcc).pts ≠ [] := by
      intro h
      rw [h] at hcount
      simp only [List.length_nil] at hcount
      omega
    have hmapne : ∀ (f : ℚ × ℚ × ℚ → ℚ),
        (workerLoop dl.length 1 hc dl 0 emptyWorkerAcc).pts.map f ≠ [] := by
      intro f hmap
      exact hne (List.map_eq_nil_iff.mp hmap)
    obtain ⟨hm1, hb1⟩ := optMinOf_getD H1 (hmapne _)
    obtain ⟨hm2, hb2⟩ := optMinOf_getD H2 (hmapne _)
    obtain ⟨hm3, hb3⟩ := optMinOf_getD H3 (hmapne _)
    obtain ⟨hm4, hb4⟩ := optMaxOf_getD H4 (hmapne _)
    obtain ⟨hm5, hb5⟩ := optMaxOf_getD H5 (hmapne _)
    obtain ⟨hm6, hb6⟩ := optMaxOf_getD H6 (hmapne _)
    refine ⟨_, rfl, hcount, hcount, ?_, ?_, ?_, ?_, ?_, ?_, ?_, rfl⟩
    · intro p hp
      exact ⟨hb1 _ (List.mem_map_of_mem _ hp), hb2 _ (List.mem_map_of_mem _ hp),
        hb3 _ (List.mem_map_of_mem _ hp), hb4 _ (List.mem_map_of_mem _ hp),
        hb5 _ (List.mem_map_of_mem _ hp), hb6 _ (List.mem_map_of_mem _ hp)⟩
    · obtain ⟨p, hp, hfp⟩ := List.mem_map.mp hm1
      exact ⟨p, hp, hfp⟩
    · obtain ⟨p, hp, hfp⟩ := List.mem_map.mp hm2
      exact ⟨p, hp, hfp⟩
    · obtain ⟨p, hp, hfp⟩ := List.mem_map.mp hm3
      exact ⟨p, hp, hfp⟩
    · obtain ⟨p, hp, hfp⟩ := List.mem_map.mp hm4
      exact ⟨p, hp, hfp⟩
    · obtain ⟨p, hp, hfp⟩ := List.mem_map.mp hm5
      exact ⟨p, hp, hfp⟩
    · obtain ⟨p, hp, hfp⟩ := List.mem_map.mp hm6
      exact ⟨p, hp, hfp⟩
  · intro fi lines hwf
    have hall : ∀ l ∈ lines, (asciiLine fi l).isSome := by
      intro l hl
      obtain ⟨hx, hy, hz⟩ := hwf l hl
      obtain ⟨x, hx⟩ := Option.isSome_iff_exists.mp hx
      obtain ⟨y, hy⟩ := Option.isSome_iff_exists.mp hy
      obtain ⟨z, hz⟩ := Option.isSome_iff_exists.mp hz
      simp [asciiLine, hx, hy, hz]
    simp only [parseASCIIData, List.length_map]
    exact filterMap_length_of_forall_isSome _ lines hall

/-- C6 witness: the worker decoder on the two well-formed lines
`(0, 0, 0)` and `(1, 2, 3)`, and `parseASCIIData` on one line. -/
theorem ascii_decode_count_and_bounds_witness :
    (∃ out, parsePCDASCII 2 false [some [0, 0, 0], some [1, 2, 3]] none none = .ok out
      ∧ out.count = 2 ∧ out.points.length = 2
      ∧ (∀ p ∈ out.points,
          out.bmin.1 ≤ p.1 ∧ out.bmin.2.1 ≤ p.2.1 ∧ out.bmin.2.2 ≤ p.2.2
            ∧ p.1 ≤ out.bmax.1 ∧ p.2.1 ≤ out.bmax.2.1 ∧ p.2.2 ≤ out.bmax.2.2)
      ∧ (∃ p ∈ out.points, p.1 = out.bmin.1)
      ∧ (∃ p ∈ out.points, p.2.1 = out.bmin.2.1)
      ∧ (∃ p ∈ out.points, p.2.2 = out.bmin.2.2)
      ∧ (∃ p ∈ out.points, p.1 = out.bmax.1)
      ∧ (∃ p ∈ out.points, p.2.1 = out.bmax.2.1)
      ∧ (∃ p ∈ out.points, p.2.2 = out.bmax.2.2)
      ∧ out.bcenter = ((out.bmin.1 + out.bmax.1) / 2,
          (out.bmin.2.1 + out.bmax.2.1) / 2, (out.bmin.2.2 + out.bmax.2.2) / 2))
    ∧ (parseASCIIData ⟨0, 1, 2, none, none, none, none⟩
        [[some 0, some 0, some 0]]).1.length = 1 := by
  constructor
  · exact ascii_decode_count_and_bounds.1 2 false [some [0, 0, 0], some [1, 2, 3]]
      (by omega) (by decide)
      (by
        intro l hl
        rcases List.mem_cons.mp hl with rfl | hl
        · exact ⟨[0, 0, 0], rfl, by decide⟩
        · rcases List.mem_cons.mp hl with rfl | hl
          · exact ⟨[1, 2, 3], rfl, by decide⟩
          · cases hl)
  · exact ascii_decode_count_and_bounds.2 ⟨0, 1, 2, none, none, none, none⟩
      [[some 0, some 0, some 0]]
      (by
        intro l hl
        rcases List.mem_cons.mp hl with rfl | hl
        · exact ⟨rfl, rfl, rfl⟩
        · cases hl)

/-- C9 counterexample: on the packed rgb value 66051 = 0x010203 the
worker decoder `parsePCDASCII` stores the colour bytes (1, 2, 3): its red
is `(rgb >> 16) & 0xff = 1`, taken from the HIGH byte, whereas the
claimed formula `red = floor(value) & 0xff` (the low byte, as
`parseASCIIData` implements it) gives 3. -/
theorem ascii_rgb_worker_counterexample :
    (parsePCDASCII 1 true [some [0, 0, 0, 66051]] none none).toOption.map
        (fun out => out.colors) = some [(1, 2, 3)]
    ∧ toUint8 (jsToInt32 ⌊(66051 : ℚ)⌋) = 3 ∧ (1 : Nat) ≠ 3 := by
  refine ⟨?_, ?_, by decide⟩
  · rw [parsePCDASCII_default_eq 1 true [some [0, 0, 0, 66051]] (by omega)]
    simp [workerLoop, emptyWorkerAcc, workerStep, workerColor, omin, omax,
      List.getD_cons_zero, List.getD_cons_succ, Except.toOption]
    norm_num [jsToInt32]
    decide
  · norm_num [jsToInt32, toUint8]
    decide

/-- C9 (amended).  `parseASCIIData` decodes a packed `rgb` field as
red = `floor(value) & 0xff` (the low byte), green =
`floor(value / 256) & 0xff`, blue = `floor(value / 65536) & 0xff`, each
divided by 255, and normalises separate `r`, `g`, `b` channels by
dividing values `> 1` by 255 while keeping values at most 1 unchanged.
The worker `parsePCDASCII`, however, decodes a packed field with shifts,
taking red from the HIGH byte `(rgb >> 16) & 0xff`, and multiplies
separate channels by 255 into bytes.  (`& 0xff` after the ToInt32
conversion is exactly the low byte: third conjunct.) -/
theorem ascii_rgb_decoding :
    (∀ (x y z v : ℚ),
      parseASCIIData ⟨0, 1, 2, none, none, none, some 3⟩
          [[some x, some y, some z, some v]]
        = ([(x, y, z)],
            some [(some ((toUint8 (jsToInt32 ⌊v⌋) : ℚ) / 255),
                   some ((toUint8 (jsToInt32 ⌊v / 256⌋) : ℚ) / 255),
                   some ((toUint8 (jsToInt32 ⌊v / 65536⌋) : ℚ) / 255))]))
    ∧ (∀ (x y z r g b : ℚ),
      parseASCIIData ⟨0, 1, 2, some 3, some 4, some 5, none⟩
          [[some x, some y, some z, some r, some g, some b]]
        = ([(x, y, z)],
            some [(some (if 1 < r then r / 255 else r),
                   some (if 1 < g then g / 255 else g),
                   some (if 1 < b then b / 255 else b))]))
    ∧ (∀ n : Int, toUint8 (jsToInt32 n) = toUint8 n)
    ∧ (∀ (x y z v : ℚ),
      parsePCDASCII 1 true [some [x, y, z, v]] none none
        = .ok { points := [(x, y, z)],
                colors := [(toUint8 ((jsToInt32 ⌊v⌋).fdiv 65536),
                            toUint8 ((jsToInt32 ⌊v⌋).fdiv 256),
                            toUint8 (jsToInt32 ⌊v⌋))],
                count := 1, bmin := (x, y, z), bmax := (x, y, z),
                bcenter := (x, y, z) })
    ∧ (∀ (x y z r g b : ℚ),
      parsePCDASCII 1 true [some [x, y, z, r, g, b]] none none
        = .ok { points := [(x, y, z)],
                colors := [(toUint8 ⌊r * 255⌋, toUint8 ⌊g * 255⌋, toUint8 ⌊b * 255⌋)],
                count := 1, bmin := (x, y, z), bmax := (x, y, z),
                bcenter := (x, y, z) }) := by
  refine ⟨?_, ?_, ?_, ?_, ?_⟩
  · intro x y z v
    simp [parseASCIIData, asciiLine, vget, asciiColor, asciiPackedColor,
      FieldIdx.hasColor, List.getD_cons_zero, List.getD_cons_succ,
      List.filterMap_cons, List.filterMap_nil]
  · intro x y z r g b
    simp [parseASCIIData, asciiLine, vget, asciiColor, asciiChannel, asciiNorm,
      FieldIdx.hasColor, List.getD_cons_zero, List.getD_cons_succ,
      List.filterMap_cons, List.filterMap_nil]
  · intro n
    have h31 : (2 : Int) ^ 31 = 2147483648 := by norm_num
    have h32 : (2 : Int) ^ 32 = 4294967296 := by norm_num
    simp only [toUint8, jsToInt32, h31, h32]
    omega
  · intro x y z v
    rw [parsePCDASCII_default_eq 1 true [some [x, y, z, v]] (by omega)]
    simp [workerLoop, emptyWorkerAcc, workerStep, workerColor, omin, omax,
      List.getD_cons_zero, List.getD_cons_succ]
  · intro x y z r g b
    rw [parsePCDASCII_default_eq 1 true [some [x, y, z, r, g, b]] (by omega)]
    simp [workerLoop, emptyWorkerAcc, workerStep, workerColor, omin, omax,
      List.getD_cons_zero, List.getD_cons_succ]

end PcdViewer
